import Mathlib

/-!
Verification development for the compound-analysis dashboard
(`app.py`) and its sample-data generator (`data_generator.py`).

The embedding models:
* the data rows of the pivot table and the pandas filtering steps
  (`get_filtered_data`, boolean-mask filters are order-preserving
  `List.filter`s);
* the per-read-out measurement whitelist (`measurement_options`);
* the shared concentration axis (`all_concentrations`) and both
  chart-building modes (pooled and per-screen) as producers of an
  abstract list of `Series` records mirroring the `go.Scatter` traces
  that the script adds to the figure;
* the colour palette slice / `dict(zip(...))` colour map;
* the pagination arithmetic of the data-preview section;
* control flow of the render pass (`run_app`), whose early
  `st.stop()` calls are modelled by a `halted` result;
* `generate_sample_data`, with the numpy random draws abstracted as
  arbitrary rational-valued streams.

Machine floats of the source are modelled as `ℚ`; `str` rendering of a
terminating decimal is modelled by `pyFloatStr`.
-/

/-- A row of the pivot table loaded by `load_data` (CSV schema:
`read-out, compound, measurement_name, screen, concentration, average,
SEM, STDEV`). Numeric columns are modelled as `ℚ`. -/
structure Row where
  read_out : String
  compound : String
  measurement_name : String
  screen : Int
  concentration : ℚ
  average : ℚ
  SEM : ℚ
  STDEV : ℚ
deriving DecidableEq

/-- A pandas `DataFrame` restricted to the pivot-table schema: an ordered
sequence of rows. Boolean-mask filtering keeps row order. -/
abbrev Table := List Row

/-- `get_filtered_data` (app.py lines 17-22): three successive
boolean-mask filters, by read-out equality, compound membership and
measurement membership. -/
def get_filtered_data (readout : String) (compounds measurements : List String)
    (data : Table) : Table :=
  let readout_data := data.filter (fun row => row.read_out = readout)
  let compound_data := readout_data.filter (fun row => row.compound ∈ compounds)
  compound_data.filter (fun row => row.measurement_name ∈ measurements)

/-- Lexicographic (code-point) comparison of character lists, the order
Python uses to compare strings. -/
def lexLe : List Char → List Char → Bool
  | [], _ => true
  | _ :: _, [] => false
  | a :: as, b :: bs =>
    if a.toNat < b.toNat then true
    else if b.toNat < a.toNat then false
    else lexLe as bs

/-- Python's `<=` on strings: lexicographic comparison by code point. -/
def SLe (s t : String) : Prop := lexLe s.data t.data = true

instance : DecidableRel SLe := fun s t =>
  inferInstanceAs (Decidable (lexLe s.data t.data = true))

/-- Python's `sorted` on a list of strings. -/
def sortedStrings (l : List String) : List String := List.insertionSort SLe l

/-- The static measurement whitelist for the calcium read-out
(app.py line 91). -/
def calcium_measurements : List String :=
  ["Rising Slope", "Falling Slope", "Pulse Width 50%", "Area Under the Curve"]

/-- The static measurement whitelist for the voltage read-out
(app.py line 92). -/
def voltage_measurements : List String :=
  ["Pulse Width 10%", "Pulse Width 50%", "Pulse Width 90%", "Rising Slope",
   "Falling Slope", "Triangulation", "Amplitude"]

/-- The allowed-measurement set for a read-out (app.py lines 97-102):
calcium and voltage use their static whitelists, any other read-out
allows every measurement present. -/
def allowed_measurements (readout : String) (present : List String) : List String :=
  if readout = "calcium" then calcium_measurements
  else if readout = "voltage" then voltage_measurements
  else present

/-- `measurement_options` (app.py line 105): sorted intersection of the
measurements present in the data with the allowed set. -/
def measurement_options (readout : String) (present : List String) : List String :=
  sortedStrings
    ((present.filter (fun m => m ∈ allowed_measurements readout present)).dedup)

/-- `compound_options` (app.py line 70): sorted distinct compounds of the
rows matching the chosen read-out. -/
def compound_options (data : Table) (readout : String) : List String :=
  sortedStrings
    (((data.filter (fun row => row.read_out = readout)).map (·.compound)).dedup)

/-- Default compound selection (app.py line 76): `["Levosimendan"]` if
present among the options, otherwise the first option (empty slice when
there are no options). -/
def default_selected_compounds (options : List String) : List String :=
  if "Levosimendan" ∈ options then ["Levosimendan"] else options.take 1

/-- `all_concentrations` (app.py line 127): the sorted distinct
concentration values of the whole filtered table. -/
def all_concentrations (t : Table) : List ℚ :=
  List.insertionSort (· ≤ ·) ((t.map (·.concentration)).dedup)

/-- `available_screens` (app.py line 120): sorted distinct screens of the
filtered table. -/
def available_screens (t : Table) : List Int :=
  List.insertionSort (· ≤ ·) ((t.map (·.screen)).dedup)

/-- Python's `list.index`: position of the first occurrence of `c`. -/
def idxOf (c : ℚ) : List ℚ → Nat
  | [] => 0
  | a :: as => if a = c then 0 else idxOf c as + 1

/-- The plotly qualitative palette `px.colors.qualitative.Set1`
(9 colours). -/
def Set1 : List String :=
  ["rgb(228,26,28)", "rgb(55,126,184)", "rgb(77,175,74)", "rgb(152,78,163)",
   "rgb(255,127,0)", "rgb(255,255,51)", "rgb(166,86,40)", "rgb(247,129,191)",
   "rgb(153,153,153)"]

/-- `compound_colors` (app.py lines 131-132):
`dict(zip(selected_compounds, Set1[:len(selected_compounds)]))`.
`zip` truncates at the shorter list. -/
def compound_colors (selected : List String) : List (String × String) :=
  selected.zip (Set1.take selected.length)

/-- Colour lookup in the `compound_colors` dict. A `none` result models a
Python `KeyError`. -/
def colorOf (selected : List String) (c : String) : Option String :=
  (compound_colors selected).lookup c

/-- The mean of a pandas numeric column (`Series.mean`): sum divided by
length. -/
def listMean (l : List ℚ) : ℚ := l.sum / l.length

/-- An abstract `go.Scatter` trace as added by the script. `hcomp` and
`conc` record the compound and the concentration interpolated into the
trace's hover template; `customdata` records the per-point concentration
labels attached in per-screen mode. -/
structure Series where
  x : List ℚ
  y : List ℚ
  error_y : Option (List ℚ)
  mode : String
  color : Option String
  legendgroup : Option String
  show_legend : Bool
  name : Option String
  hcomp : Option String
  conc : Option ℚ
  customdata : List ℚ
  row : Nat
  col : Nat
deriving DecidableEq

/-- Pooled mode, innermost loop (app.py lines 163-212): for every
concentration of the shared axis with matching rows, add a marker trace
with one point per row and a horizontal mean segment; the legend flag is
cleared after the first pair of traces. -/
def pooled_conc_traces (axis : List ℚ) (cmd : Table) (compound : String)
    (color : Option String) (r : Nat) : List ℚ → Bool → List Series
  | [], _ => []
  | c :: cs, show_in_legend =>
    let conc_data := cmd.filter (fun row => row.concentration = c)
    if conc_data = [] then
      pooled_conc_traces axis cmd compound color r cs show_in_legend
    else
      let x_pos : ℚ := (idxOf c axis : Nat)
      let markers : Series :=
        { x := List.replicate conc_data.length x_pos
          y := conc_data.map (·.average)
          error_y := none
          mode := "markers"
          color := color
          legendgroup := some compound
          show_legend := show_in_legend
          name := if show_in_legend then some compound else none
          hcomp := some compound
          conc := some c
          customdata := []
          row := r
          col := 1 }
      let mean_value := listMean (conc_data.map (·.average))
      let seg : Series :=
        { x := [x_pos - 1/5, x_pos + 1/5]
          y := [mean_value, mean_value]
          error_y := none
          mode := "lines"
          color := color
          legendgroup := none
          show_legend := false
          name := none
          hcomp := some compound
          conc := some c
          customdata := []
          row := r
          col := 1 }
      markers :: seg :: pooled_conc_traces axis cmd compound color r cs false

/-- Pooled mode, compound loop (app.py lines 153-212), threading the
`legend_compounds` set. -/
def pooled_compound_traces (axis : List ℚ) (mdata : Table)
    (colors : String → Option String) (r : Nat) :
    List String → List String → List Series × List String
  | [], seen => ([], seen)
  | p :: ps, seen =>
    let cmd := mdata.filter (fun row => row.compound = p)
    if cmd = [] then
      pooled_compound_traces axis mdata colors r ps seen
    else
      let show_in_legend := p ∉ seen
      let seen1 := if p ∈ seen then seen else p :: seen
      let traces := pooled_conc_traces axis cmd p (colors p) r axis (decide show_in_legend)
      let rest := pooled_compound_traces axis mdata colors r ps seen1
      (traces ++ rest.1, rest.2)

/-- Pooled mode, measurement loop (app.py lines 150-212): subplot row
`measurement_idx + 1`, `legend_compounds` threaded across panels. -/
def pooled_measurement_traces (filtered : Table) (axis : List ℚ)
    (colors : String → Option String) (compounds : List String) :
    List String → Nat → List String → List Series
  | [], _, _ => []
  | m :: ms, idx, seen =>
    let mdata := filtered.filter (fun row => row.measurement_name = m)
    let stage := pooled_compound_traces axis mdata colors (idx + 1) compounds seen
    stage.1 ++ pooled_measurement_traces filtered axis colors compounds ms (idx + 1) stage.2

/-- The pooled-mode chart spec (app.py lines 134-248) as the ordered list
of traces added to the figure. -/
def build_pooled (filtered : Table) (measurements compounds : List String)
    (colors : String → Option String) : List Series :=
  pooled_measurement_traces filtered (all_concentrations filtered) colors
    compounds measurements 0 []

/-- Per-screen mode, compound loop (app.py lines 274-320): one
lines+markers trace per compound with data, sorted by concentration,
with SEM error bars and concentration labels as customdata. -/
def perscreen_compound_traces (axis : List ℚ) (mdata : Table)
    (colors : String → Option String) (r c : Nat) :
    List String → List String → List Series × List String
  | [], seen => ([], seen)
  | p :: ps, seen =>
    let cmd := mdata.filter (fun row => row.compound = p)
    if cmd = [] then
      perscreen_compound_traces axis mdata colors r c ps seen
    else
      let sorted := List.insertionSort
        (fun a b => a.concentration ≤ b.concentration) cmd
      let show_in_legend := p ∉ seen
      let seen1 := if p ∈ seen then seen else p :: seen
      let trace : Series :=
        { x := sorted.map (fun row => ((idxOf row.concentration axis : Nat) : ℚ))
          y := sorted.map (·.average)
          error_y := some (sorted.map (·.SEM))
          mode := "lines+markers"
          color := colors p
          legendgroup := some p
          show_legend := decide show_in_legend
          name := some p
          hcomp := some p
          conc := none
          customdata := sorted.map (·.concentration)
          row := r
          col := c }
      let rest := perscreen_compound_traces axis mdata colors r c ps seen1
      (trace :: rest.1, rest.2)

/-- Per-screen mode, screen loop (app.py lines 270-320): one subplot
column per available screen. -/
def perscreen_screen_traces (filtered : Table) (axis : List ℚ)
    (colors : String → Option String) (compounds : List String) (m : String)
    (r : Nat) : List Int → Nat → List String → List Series × List String
  | [], _, seen => ([], seen)
  | s :: ss, sIdx, seen =>
    let screen_data := filtered.filter (fun row => row.screen = s)
    let mdata := screen_data.filter (fun row => row.measurement_name = m)
    let stage := perscreen_compound_traces axis mdata colors r (sIdx + 1) compounds seen
    let rest := perscreen_screen_traces filtered axis colors compounds m r ss (sIdx + 1) stage.2
    (stage.1 ++ rest.1, rest.2)

/-- Per-screen mode, measurement loop (app.py lines 269-320). -/
def perscreen_measurement_traces (filtered : Table) (axis : List ℚ)
    (colors : String → Option String) (compounds : List String)
    (screens : List Int) : List String → Nat → List String → List Series
  | [], _, _ => []
  | m :: ms, idx, seen =>
    let stage := perscreen_screen_traces filtered axis colors compounds m (idx + 1) screens 0 seen
    stage.1 ++ perscreen_measurement_traces filtered axis colors compounds screens ms (idx + 1) stage.2

/-- The per-screen chart spec (app.py lines 250-366) as the ordered list
of traces added to the figure. -/
def build_per_screen (filtered : Table) (measurements compounds : List String)
    (colors : String → Option String) : List Series :=
  perscreen_measurement_traces filtered (all_concentrations filtered) colors
    compounds (available_screens filtered) measurements 0 []

/-- Result of one render pass of the script: either an early `st.stop()`
with the warning shown, or a figure (chart spec). -/
inductive RenderResult where
  | halted : String → RenderResult
  | rendered : List Series → RenderResult
deriving DecidableEq

/-- The render pass of app.py: the empty-compound check (line 80) and the
empty-measurement check (line 112) halt the script before
`get_filtered_data` (line 117) runs and before any figure is built. -/
def run_app (data : Table) (readout : String)
    (selected_compounds selected_measurements : List String)
    (pool_screens : Bool) : RenderResult :=
  if selected_compounds = [] then
    .halted "Please select at least one compound to display data."
  else if selected_measurements = [] then
    .halted "Please select at least one measurement to display."
  else
    let filtered := get_filtered_data readout selected_compounds selected_measurements data
    if pool_screens then
      .rendered (build_pooled filtered selected_measurements selected_compounds
        (colorOf selected_compounds))
    else
      .rendered (build_per_screen filtered selected_measurements selected_compounds
        (colorOf selected_compounds))

/-- `total_pages` (app.py line 427): `(len - 1) // rows_per_page + 1`. -/
def total_pages (n rows_per_page : Nat) : Nat := (n - 1) / rows_per_page + 1

/-- One displayed page (app.py lines 430-435): rows
`start_idx = (page-1)*rows_per_page` up to `start_idx + rows_per_page`
exclusive, clipped by the table length (`iloc` slicing). -/
def page_rows {α : Type} (l : List α) (page rows_per_page : Nat) : List α :=
  (l.drop ((page - 1) * rows_per_page)).take rows_per_page

/-- Fractional decimal digits of `num/den` (at most `fuel` digits,
stopping at a zero remainder). -/
def fracDigitsStr (den : Nat) : Nat → Nat → String
  | _, 0 => ""
  | num, fuel + 1 =>
    if num = 0 then ""
    else Nat.repr (num * 10 / den) ++ fracDigitsStr den (num * 10 % den) fuel

/-- Python's `str()` of a float whose value is a terminating decimal:
integer part, a dot, then the fractional digits (a single `0` when the
value is integral). -/
def pyFloatStr (q : ℚ) : String :=
  (if q.num < 0 then "-" else "") ++
    Nat.repr (q.num.natAbs / q.den) ++ "." ++
    (if q.num.natAbs % q.den = 0 then "0"
     else fracDigitsStr q.den (q.num.natAbs % q.den) 17)

/-- The concentration axis as claim C5 words it: the distinct
concentration values sorted lexicographically, i.e. by the Python string
rendering of the value. Stated from the claim, to be compared with
`all_concentrations`. -/
def lex_concentrations (t : Table) : List ℚ :=
  List.insertionSort (fun a b => SLe (pyFloatStr a) (pyFloatStr b))
    ((t.map (·.concentration)).dedup)

/-- The numpy / `random` draws consumed by `generate_sample_data`
(data_generator.py), abstracted as arbitrary streams: each field stands
for one family of `np.random.*` / `random.*` calls, indexed by call
order. No distributional fact is assumed. -/
structure Draws where
  salesDays : Nat → Nat
  salesRegion : Nat → Nat
  salesProduct : Nat → Nat
  salesAmount : Nat → ℚ
  unitsSold : Nat → Nat
  profitMargin : Nat → ℚ
  basePrice : Nat → ℚ
  dailyReturn : Nat → ℚ
  volumeDraw : Nat → ℚ
  mcapDraw : Nat → ℚ
  baseTemp : Nat → ℚ
  seasonal : Nat → ℚ
  tempNoise : Nat → ℚ
  humidityDraw : Nat → ℚ
  precipDraw : Nat → ℚ
  windDraw : Nat → ℚ

/-- A row of the `sales_data` dataset (data_generator.py lines 23-31);
the date offset is kept as a day count. -/
structure SalesRow where
  daysAgo : Nat
  region : String
  product : String
  sales_amount : ℚ
  units_sold : ℚ
  profit_margin : ℚ

/-- The region labels of the sales dataset. -/
def regions : List String := ["North", "South", "East", "West", "Central"]

/-- The product labels of the sales dataset. -/
def products : List String :=
  ["Product A", "Product B", "Product C", "Product D", "Product E"]

/-- The 200 generated sales rows (data_generator.py lines 23-31);
`random.choice` is modelled by an arbitrary index draw reduced modulo the
list length, `random.randint(0, 365)` by an arbitrary draw modulo 366. -/
def sales_rows (g : Draws) : List SalesRow :=
  (List.range 200).map fun i =>
    { daysAgo := g.salesDays i % 366
      region := regions.getD (g.salesRegion i % regions.length) ""
      product := products.getD (g.salesProduct i % products.length) ""
      sales_amount := g.salesAmount i
      units_sold := (g.unitsSold i : ℚ)
      profit_margin := g.profitMargin i }

/-- Line 34 of data_generator.py: `np.abs` over the `sales_amount`
column. -/
def sales_data (g : Draws) : List SalesRow :=
  (sales_rows g).map fun r => { r with sales_amount := |r.sales_amount| }

/-- A row of the `stock_prices` dataset (data_generator.py lines 42-59). -/
structure StockRow where
  day : Nat
  symbol : String
  price : ℚ
  volume : ℚ
  market_cap : ℚ

/-- The stock symbols of the stock dataset. -/
def stock_symbols : List String := ["AAPL", "GOOGL", "MSFT", "AMZN", "TSLA"]

/-- The random-walk inner loop of the stock dataset (lines 45-59): the
price is the previous base price times `1 + daily_return`, and becomes
the next base price. -/
def stock_walk (ret vol mc : Nat → ℚ) (symbol : String) : Nat → Nat → ℚ → List StockRow
  | _, 0, _ => []
  | i, fuel + 1, base =>
    let price := base * (1 + ret i)
    { day := i, symbol := symbol, price := price, volume := vol i,
      market_cap := price * mc i } ::
      stock_walk ret vol mc symbol (i + 1) fuel price

/-- The stock dataset: a 252-day walk per symbol, each starting from its
own uniform base-price draw. -/
def stock_rows (g : Draws) : List StockRow :=
  (stock_symbols.enum).flatMap fun ks =>
    stock_walk (fun i => g.dailyReturn (252 * ks.1 + i))
      (fun i => g.volumeDraw (252 * ks.1 + i))
      (fun i => g.mcapDraw (252 * ks.1 + i))
      ks.2 0 252 (g.basePrice ks.1)

/-- A row of the `weather_data` dataset (data_generator.py lines 67-84);
the `15 * sin(2π·day/365)` seasonal term is abstracted as a draw, since
no claim concerns the temperature column. -/
structure WeatherRow where
  daysAgo : Nat
  city : String
  temperature : ℚ
  humidity : ℚ
  precipitation : ℚ
  wind_speed : ℚ

/-- The city labels of the weather dataset. -/
def cities : List String := ["New York", "Los Angeles", "Chicago", "Houston", "Phoenix"]

/-- The weather dataset: 365 rows per city. -/
def weather_rows (g : Draws) : List WeatherRow :=
  (cities.enum).flatMap fun kc =>
    (List.range 365).map fun i =>
      { daysAgo := i
        city := kc.2
        temperature := g.baseTemp kc.1 + g.seasonal (365 * kc.1 + i) +
          g.tempNoise (365 * kc.1 + i)
        humidity := g.humidityDraw (365 * kc.1 + i)
        precipitation := g.precipDraw (365 * kc.1 + i)
        wind_speed := g.windDraw (365 * kc.1 + i) }

/-- The cleanup loop of data_generator.py (lines 88-97) on the sales
dataset: of the listed columns, `sales_amount` is present. -/
def cleanup_sales (rows : List SalesRow) : List SalesRow :=
  rows.map fun r => { r with sales_amount := |r.sales_amount| }

/-- The cleanup loop on the stock dataset: `price`, `volume` and
`market_cap` are present in the listed columns. -/
def cleanup_stock (rows : List StockRow) : List StockRow :=
  rows.map fun r =>
    { r with price := |r.price|, volume := |r.volume|, market_cap := |r.market_cap| }

/-- The cleanup loop on the weather dataset: `precipitation` and
`wind_speed` are present in the listed columns. -/
def cleanup_weather (rows : List WeatherRow) : List WeatherRow :=
  rows.map fun r =>
    { r with precipitation := |r.precipitation|, wind_speed := |r.wind_speed| }

/-- `generate_sample_data` (data_generator.py lines 6-99): the three
datasets after the negative-value cleanup. -/
def generate_sample_data (g : Draws) :
    List SalesRow × List StockRow × List WeatherRow :=
  (cleanup_sales (sales_data g), cleanup_stock (stock_rows g),
   cleanup_weather (weather_rows g))

/-- First row of the pooled-mode scenario of the spec: compound A,
Rising Slope, screen 1, concentration 0.1, average 5.0, SEM 0.5. -/
def rowA1 : Row :=
  { read_out := "calcium", compound := "A", measurement_name := "Rising Slope",
    screen := 1, concentration := mkRat 1 10, average := 5, SEM := mkRat 1 2,
    STDEV := 0 }

/-- Second row of the pooled-mode scenario: screen 2, average 7.0,
SEM 0.3. -/
def rowA2 : Row :=
  { read_out := "calcium", compound := "A", measurement_name := "Rising Slope",
    screen := 2, concentration := mkRat 1 10, average := 7, SEM := mkRat 3 10,
    STDEV := 0 }

/-- The two-row scenario table of the spec. -/
def scenario_table : Table := [rowA1, rowA2]

/-- A single calcium row with integer-valued numeric fields, used as a
concrete input. -/
def row_cal : Row :=
  { read_out := "calcium", compound := "A", measurement_name := "Rising Slope",
    screen := 1, concentration := 1, average := 5, SEM := 1, STDEV := 0 }

/-- A row for a given compound in a ten-compound table. -/
def mk10Row (c : String) : Row :=
  { read_out := "calcium", compound := c, measurement_name := "M",
    screen := 1, concentration := 1, average := 1, SEM := 0, STDEV := 0 }

/-- Ten selected compounds: one more than the palette holds. -/
def sel10 : List String := ["A", "B", "C", "D", "E", "F", "G", "H", "I", "J"]

/-- A table with one row per each of the ten compounds. -/
def table10 : Table := sel10.map mk10Row

/-- A table whose concentrations are 10 and 2: their numeric order and
the lexicographic order of their string renderings disagree. -/
def table_2_10 : Table :=
  [{ row_cal with concentration := 10 }, { row_cal with concentration := 2 }]

/-- How many series of a spec show a legend entry for compound `c`'s
legend group. -/
def legendCount (c : String) (l : List Series) : Nat :=
  l.countP (fun t => decide (t.legendgroup = some c ∧ t.show_legend = true))

/-- Compound `c` appears in the spec: some series belongs to its legend
group. -/
def appearsIn (c : String) (l : List Series) : Prop :=
  ∃ t ∈ l, t.legendgroup = some c

instance (c : String) (l : List Series) : Decidable (appearsIn c l) :=
  inferInstanceAs (Decidable (∃ t ∈ l, t.legendgroup = some c))

/-- The key identifying one pooled trace: subplot row, hover compound,
hover concentration and trace mode. -/
def tracePred (R : Nat) (q : String) (c : ℚ) (m0 : String) (t : Series) : Bool :=
  decide (t.row = R ∧ t.hcomp = some q ∧ t.conc = some c ∧ t.mode = m0)

theorem lexLe_total : ∀ a b, lexLe a b = true ∨ lexLe b a = true := by
  intro a
  induction a with
  | nil => intro b; left; rfl
  | cons x xs ih =>
    intro b
    cases b with
    | nil => right; rfl
    | cons y ys =>
      simp only [lexLe]
      rcases Nat.lt_trichotomy x.toNat y.toNat with h | h | h
      · left; simp [h]
      · have h1 : ¬ x.toNat < y.toNat := by omega
        have h2 : ¬ y.toNat < x.toNat := by omega
        simp only [h1, h2, if_false, if_true, ite_self]
        simpa [h1, h2] using ih ys
      · right; simp [h, Nat.lt_asymm h]

theorem lexLe_trans :
    ∀ a b c, lexLe a b = true → lexLe b c = true → lexLe a c = true := by
  intro a
  induction a with
  | nil => intro b c _ _; rfl
  | cons x xs ih =>
    intro b c hab hbc
    cases b with
    | nil => simp [lexLe] at hab
    | cons y ys =>
      cases c with
      | nil => simp [lexLe] at hbc
      | cons z zs =>
        simp only [lexLe] at hab hbc ⊢
        rcases Nat.lt_trichotomy x.toNat y.toNat with hxy | hxy | hxy
        · rcases Nat.lt_trichotomy y.toNat z.toNat with hyz | hyz | hyz
          · have hxz : x.toNat < z.toNat := lt_trans hxy hyz
            simp [hxz]
          · have hxz : x.toNat < z.toNat := by omega
            simp [hxz]
          · exfalso
            have h1 : ¬ y.toNat < z.toNat := by omega
            simp [h1, hyz] at hbc
        · rcases Nat.lt_trichotomy y.toNat z.toNat with hyz | hyz | hyz
          · have hxz : x.toNat < z.toNat := by omega
            simp [hxz]
          · have h1 : ¬ x.toNat < z.toNat := by omega
            have h2 : ¬ z.toNat < x.toNat := by omega
            simp only [h1, h2, if_false]
            have n1 : ¬ x.toNat < y.toNat := by omega
            have n2 : ¬ y.toNat < x.toNat := by omega
            have n3 : ¬ y.toNat < z.toNat := by omega
            have n4 : ¬ z.toNat < y.toNat := by omega
            have ha : lexLe xs ys = true := by simpa [n1, n2] using hab
            have hb : lexLe ys zs = true := by simpa [n3, n4] using hbc
            exact ih ys zs ha hb
          · exfalso
            have n1 : ¬ y.toNat < z.toNat := by omega
            simp [n1, hyz] at hbc
        · exfalso
          have n1 : ¬ x.toNat < y.toNat := by omega
          simp [n1, hxy] at hab

instance : IsTotal String SLe := ⟨fun s t => lexLe_total s.data t.data⟩

instance : IsTrans String SLe := ⟨fun a b c => lexLe_trans a.data b.data c.data⟩

/-- Claim C2: for every read-out and set of present measurements, the
resolved option set is the intersection of the present measurements with
the read-out's static whitelist (calcium and voltage as listed, any other
read-out allowing all present measurements), sorted lexicographically
without duplicates; in particular voltage with present measurements
Rising Slope and Foo resolves to Rising Slope alone. -/
theorem C2_measurement_whitelist (readout : String) (present : List String) :
    (∀ m, m ∈ measurement_options readout present ↔
      m ∈ present ∧ m ∈ allowed_measurements readout present)
    ∧ List.Sorted SLe (measurement_options readout present)
    ∧ (measurement_options readout present).Nodup
    ∧ measurement_options "voltage" ["Rising Slope", "Foo"] = ["Rising Slope"] := by
  refine ⟨fun m => ?_, List.sorted_insertionSort _ _,
    ((List.perm_insertionSort SLe _).nodup_iff).mpr (List.nodup_dedup _), by decide⟩
  simp [measurement_options, sortedStrings, List.mem_insertionSort,
    List.mem_dedup, List.mem_filter]

/-- Claim C3 counterexample: on a one-row table, filtering with an empty
compound set returns the empty table, while omitting the compound
predicate keeps the row, so the empty allowed set is not a
pass-through. -/
theorem C3_counterexample :
    get_filtered_data "calcium" [] ["Rising Slope"] [row_cal] = []
    ∧ (([row_cal].filter (fun row => row.read_out = "calcium")).filter
        (fun row => row.measurement_name ∈ ["Rising Slope"])) = [row_cal]
    ∧ ([] : Table) ≠ [row_cal] := by
  refine ⟨by decide, by decide, by decide⟩

/-- Claim C3 (amended): `get_filtered_data` treats an empty allowed-value
set as excluding every row, not as a pass-through: with an empty compound
set or an empty measurement set the result is the empty table. (The app
never reaches this case: the render pass halts on empty selections before
calling `get_filtered_data`.) -/
theorem C3_empty_set_excludes_all (readout : String)
    (compounds measurements : List String) (data : Table) :
    get_filtered_data readout [] measurements data = []
    ∧ get_filtered_data readout compounds [] data = [] := by
  constructor
  · simp [get_filtered_data]
  · simp [get_filtered_data]

/-- Claim C8: an empty compound selection (or, with compounds selected, an
empty measurement selection) halts the render pass with the corresponding
warning before `get_filtered_data` runs, and no chart spec is produced in
either case. -/
theorem C8_empty_selection_halts (data : Table) (readout : String)
    (cs ms : List String) (pool : Bool) :
    (run_app data readout [] ms pool =
      .halted "Please select at least one compound to display data.")
    ∧ (cs ≠ [] → run_app data readout cs [] pool =
      .halted "Please select at least one measurement to display.")
    ∧ (cs = [] ∨ ms = [] → ∀ spec, run_app data readout cs ms pool ≠ .rendered spec) := by
  refine ⟨by simp [run_app], fun h => by simp [run_app, h], ?_⟩
  rintro (h | h) spec
  · subst h; simp [run_app]
  · subst h
    by_cases hc : cs = [] <;> simp [run_app, hc]

/-- Claim C8 witness: with one compound selected and no measurement
selected, the pass halts at the measurement check. -/
theorem C8_witness :
    run_app [] "calcium" ["A"] [] true =
      .halted "Please select at least one measurement to display." :=
  (C8_empty_selection_halts [] "calcium" ["A"] [] true).2.1 (by decide)

/-- Claim C10: every dataset built by `generate_sample_data` has only
non-negative values in the columns price, sales_amount, volume,
market_cap, precipitation and wind_speed, whatever the random draws
were. -/
theorem C10_generated_data_nonneg (g : Draws) :
    (∀ r ∈ (generate_sample_data g).1, 0 ≤ r.sales_amount)
    ∧ (∀ r ∈ (generate_sample_data g).2.1,
        0 ≤ r.price ∧ 0 ≤ r.volume ∧ 0 ≤ r.market_cap)
    ∧ (∀ r ∈ (generate_sample_data g).2.2,
        0 ≤ r.precipitation ∧ 0 ≤ r.wind_speed) := by
  refine ⟨?_, ?_, ?_⟩
  · intro r hr
    simp only [generate_sample_data, cleanup_sales, List.mem_map] at hr
    obtain ⟨s, _, rfl⟩ := hr
    exact abs_nonneg _
  · intro r hr
    simp only [generate_sample_data, cleanup_stock, List.mem_map] at hr
    obtain ⟨s, _, rfl⟩ := hr
    exact ⟨abs_nonneg _, abs_nonneg _, abs_nonneg _⟩
  · intro r hr
    simp only [generate_sample_data, cleanup_weather, List.mem_map] at hr
    obtain ⟨s, _, rfl⟩ := hr
    exact ⟨abs_nonneg _, abs_nonneg _⟩

/-- Claim C9: the default compound selection is Levosimendan alone when it
is among the options, otherwise the first of the sorted options; it is
empty exactly when no compound is present for the read-out. -/
theorem C9_default_compound_selection (data : Table) (readout : String) :
    ("Levosimendan" ∈ compound_options data readout →
      default_selected_compounds (compound_options data readout) = ["Levosimendan"])
    ∧ (∀ a t, compound_options data readout = a :: t →
        "Levosimendan" ∉ compound_options data readout →
        default_selected_compounds (compound_options data readout) = [a])
    ∧ (default_selected_compounds (compound_options data readout) = [] ↔
        compound_options data readout = [])
    ∧ List.Sorted SLe (compound_options data readout)
    ∧ (∀ c, c ∈ compound_options data readout ↔
        ∃ row ∈ data, row.read_out = readout ∧ row.compound = c) := by
  refine ⟨fun h => by simp [default_selected_compounds, h], ?_, ?_,
    List.sorted_insertionSort _ _, fun c => ?_⟩
  · intro a t hopt hn
    rw [hopt] at hn ⊢
    simp [default_selected_compounds, hn]
  · cases hopt : compound_options data readout with
    | nil => simp [default_selected_compounds]
    | cons a t =>
      simp only [default_selected_compounds]
      split <;> simp
  · simp only [compound_options, sortedStrings, List.mem_insertionSort,
      List.mem_dedup, List.mem_map, List.mem_filter, decide_eq_true_eq]
    constructor
    · rintro ⟨row, ⟨hrow, hro⟩, hc⟩
      exact ⟨row, hrow, hro, hc⟩
    · rintro ⟨row, hrow, hro, hc⟩
      exact ⟨row, ⟨hrow, hro⟩, hc⟩

theorem sum_page_lengths {α : Type} (s : Nat) (hs : 0 < s) :
    ∀ n (l : List α), l.length = n →
      (Finset.range (total_pages n s)).sum
        (fun q => ((l.drop (q * s)).take s).length) = n := by
  intro n
  induction n using Nat.strong_induction_on with
  | _ n ih =>
    intro l hl
    by_cases hns : n ≤ s
    · have ht : total_pages n s = 1 := by
        unfold total_pages
        have : (n - 1) / s = 0 := Nat.div_eq_of_lt (by omega)
        omega
      rw [ht]
      simp [List.length_take, List.length_drop, hl]
      omega
    · push_neg at hns
      have ht : total_pages n s = total_pages (n - s) s + 1 := by
        unfold total_pages
        have h1 : s ≤ n - 1 := by omega
        have h2 := Nat.div_eq_sub_div hs h1
        have h3 : n - 1 - s = n - s - 1 := by omega
        rw [h3] at h2
        omega
      rw [ht, Finset.sum_range_succ']
      have hsum : (Finset.range (total_pages (n - s) s)).sum
          (fun i => ((l.drop ((i + 1) * s)).take s).length) = n - s := by
        have hfun : (fun i => ((l.drop ((i + 1) * s)).take s).length) =
            (fun i => (((l.drop s).drop (i * s)).take s).length) := by
          funext i
          congr 2
          rw [List.drop_drop]
          congr 1
          ring
        rw [hfun]
        exact ih (n - s) (by omega) (l.drop s) (by simp [hl])
      rw [hsum]
      simp [List.length_take, List.length_drop, hl]
      omega

/-- Claim C6: for a non-empty table and positive page size, the page count
is the ceiling of rows over page size, page `p` (1-based) holds exactly
the rows with indices `(p-1)*size` through `min(p*size, n) - 1`, and the
page row counts over all pages sum to the table length. -/
theorem C6_pagination {α : Type} (l : List α) (s p : Nat) (hs : 0 < s)
    (hn : 0 < l.length) (hp1 : 1 ≤ p) (_hp2 : p ≤ total_pages l.length s) :
    total_pages l.length s = (l.length + s - 1) / s
    ∧ (page_rows l p s).length = min (p * s) l.length - (p - 1) * s
    ∧ (∀ j, j < (page_rows l p s).length →
        (page_rows l p s)[j]? = l[(p - 1) * s + j]?)
    ∧ (Finset.Icc 1 (total_pages l.length s)).sum
        (fun q => (page_rows l q s).length) = l.length := by
  refine ⟨?_, ?_, ?_, ?_⟩
  · have h1 : l.length + s - 1 = (l.length - 1) + s := by omega
    rw [total_pages, h1, Nat.add_div_right _ hs]
  · have hps : (p - 1) * s = p * s - s := by
      rw [Nat.sub_mul, Nat.one_mul]
    have hsps : s ≤ p * s := Nat.le_mul_of_pos_left s hp1
    simp only [page_rows, List.length_take, List.length_drop, hps]
    omega
  · intro j hj
    simp only [page_rows, List.length_take, List.length_drop] at hj
    have hjs : j < s := by omega
    simp only [page_rows]
    rw [List.getElem?_take_of_lt hjs, List.getElem?_drop]
  · rw [← Nat.Ico_succ_right, Finset.sum_Ico_eq_sum_range,
      show total_pages l.length s + 1 - 1 = total_pages l.length s from rfl]
    refine Eq.trans (Finset.sum_congr rfl fun q _ => ?_)
      (sum_page_lengths s hs l.length l rfl)
    have hq : (1 + q - 1) * s = q * s := by
      have h1q : 1 + q - 1 = q := by omega
      rw [h1q]
    simp only [page_rows]
    rw [hq]

/-- Claim C6 witness: a five-row table with page size 2 and page 3. -/
theorem C6_witness :
    (0 < 2 ∧ 0 < ([10, 20, 30, 40, 50] : List Nat).length ∧ 1 ≤ 3 ∧
      3 ≤ total_pages ([10, 20, 30, 40, 50] : List Nat).length 2)
    ∧ (total_pages ([10, 20, 30, 40, 50] : List Nat).length 2 =
        (([10, 20, 30, 40, 50] : List Nat).length + 2 - 1) / 2
      ∧ (page_rows ([10, 20, 30, 40, 50] : List Nat) 3 2).length =
          min (3 * 2) ([10, 20, 30, 40, 50] : List Nat).length - (3 - 1) * 2
      ∧ (∀ j, j < (page_rows ([10, 20, 30, 40, 50] : List Nat) 3 2).length →
          (page_rows ([10, 20, 30, 40, 50] : List Nat) 3 2)[j]? =
            ([10, 20, 30, 40, 50] : List Nat)[(3 - 1) * 2 + j]?)
      ∧ (Finset.Icc 1 (total_pages ([10, 20, 30, 40, 50] : List Nat).length 2)).sum
          (fun q => (page_rows ([10, 20, 30, 40, 50] : List Nat) q 2).length) =
          ([10, 20, 30, 40, 50] : List Nat).length) :=
  ⟨⟨by decide, by decide, by decide, by decide⟩,
   C6_pagination [10, 20, 30, 40, 50] 2 3 (by decide) (by decide) (by decide) (by decide)⟩

theorem zip_lookup_get (pal : List String) :
    ∀ (sel : List String), sel.Nodup → sel.length ≤ pal.length →
    ∀ i (hi : i < sel.length),
      (sel.zip (pal.take sel.length)).lookup (sel.get ⟨i, hi⟩) = pal[i]? := by
  intro sel
  induction sel generalizing pal with
  | nil => intro _ _ i hi; simp at hi
  | cons p ps ih =>
    intro hnd hlen i hi
    cases pal with
    | nil => simp at hlen
    | cons q qs =>
      cases i with
      | zero => simp [List.lookup]
      | succ j =>
        have hj : j < ps.length := by simpa using hi
        have hne : (ps.get ⟨j, hj⟩ == p) = false := by
          rw [beq_eq_false_iff_ne]
          intro h
          exact (List.nodup_cons.mp hnd).1 (h ▸ ps.get_mem j hj)
        have hlen2 : ps.length ≤ qs.length := by simpa using hlen
        simp only [List.length_cons, List.take_succ_cons, List.zip_cons_cons,
          List.get_cons_succ, List.lookup, hne, List.getElem?_cons_succ]
        exact ih qs (List.nodup_cons.mp hnd).2 hlen2 j hj

theorem pooled_conc_traces_color (axis : List ℚ) (cmd : Table) (p : String)
    (col : Option String) (r : Nat) :
    ∀ cs b t, t ∈ pooled_conc_traces axis cmd p col r cs b → t.color = col := by
  intro cs
  induction cs with
  | nil => intro b t ht; simp [pooled_conc_traces] at ht
  | cons c cs ih =>
    intro b t ht
    rw [pooled_conc_traces] at ht
    split at ht
    · exact ih b t ht
    · rcases List.mem_cons.mp ht with rfl | ht2
      · rfl
      · rcases List.mem_cons.mp ht2 with rfl | ht3
        · rfl
        · exact ih false t ht3

theorem pooled_compound_traces_color (axis : List ℚ) (mdata : Table)
    (colors : String → Option String) (r : Nat) :
    ∀ ps seen t, t ∈ (pooled_compound_traces axis mdata colors r ps seen).1 →
      ∃ p ∈ ps, t.color = colors p := by
  intro ps
  induction ps with
  | nil => intro seen t ht; simp [pooled_compound_traces] at ht
  | cons p ps ih =>
    intro seen t ht
    rw [pooled_compound_traces] at ht
    split at ht
    · obtain ⟨p', hp', hc⟩ := ih seen t ht
      exact ⟨p', List.mem_cons_of_mem _ hp', hc⟩
    · rcases List.mem_append.mp ht with h | h
      · exact ⟨p, List.mem_cons_self _ _, pooled_conc_traces_color _ _ _ _ _ _ _ t h⟩
      · obtain ⟨p', hp', hc⟩ := ih _ t h
        exact ⟨p', List.mem_cons_of_mem _ hp', hc⟩

theorem pooled_measurement_traces_color (filtered : Table) (axis : List ℚ)
    (colors : String → Option String) (compounds : List String) :
    ∀ ms idx seen t,
      t ∈ pooled_measurement_traces filtered axis colors compounds ms idx seen →
      ∃ p ∈ compounds, t.color = colors p := by
  intro ms
  induction ms with
  | nil => intro idx seen t ht; simp [pooled_measurement_traces] at ht
  | cons m ms ih =>
    intro idx seen t ht
    rw [pooled_measurement_traces] at ht
    rcases List.mem_append.mp ht with h | h
    · exact pooled_compound_traces_color _ _ _ _ _ _ t h
    · exact ih _ _ t h

theorem perscreen_compound_traces_color (axis : List ℚ) (mdata : Table)
    (colors : String → Option String) (r c : Nat) :
    ∀ ps seen t, t ∈ (perscreen_compound_traces axis mdata colors r c ps seen).1 →
      ∃ p ∈ ps, t.color = colors p := by
  intro ps
  induction ps with
  | nil => intro seen t ht; simp [perscreen_compound_traces] at ht
  | cons p ps ih =>
    intro seen t ht
    rw [perscreen_compound_traces] at ht
    split at ht
    · obtain ⟨p', hp', hc⟩ := ih seen t ht
      exact ⟨p', List.mem_cons_of_mem _ hp', hc⟩
    · rcases List.mem_cons.mp ht with rfl | h
      · exact ⟨p, List.mem_cons_self _ _, rfl⟩
      · obtain ⟨p', hp', hc⟩ := ih _ t h
        exact ⟨p', List.mem_cons_of_mem _ hp', hc⟩

theorem perscreen_screen_traces_color (filtered : Table) (axis : List ℚ)
    (colors : String → Option String) (compounds : List String) (m : String)
    (r : Nat) :
    ∀ ss sIdx seen t,
      t ∈ (perscreen_screen_traces filtered axis colors compounds m r ss sIdx seen).1 →
      ∃ p ∈ compounds, t.color = colors p := by
  intro ss
  induction ss with
  | nil => intro sIdx seen t ht; simp [perscreen_screen_traces] at ht
  | cons sc ss ih =>
    intro sIdx seen t ht
    rw [perscreen_screen_traces] at ht
    rcases List.mem_append.mp ht with h | h
    · exact perscreen_compound_traces_color _ _ _ _ _ _ _ t h
    · exact ih _ _ t h

theorem perscreen_measurement_traces_color (filtered : Table) (axis : List ℚ)
    (colors : String → Option String) (compounds : List String)
    (screens : List Int) :
    ∀ ms idx seen t,
      t ∈ perscreen_measurement_traces filtered axis colors compounds screens ms idx seen →
      ∃ p ∈ compounds, t.color = colors p := by
  intro ms
  induction ms with
  | nil => intro idx seen t ht; simp [perscreen_measurement_traces] at ht
  | cons m ms ih =>
    intro idx seen t ht
    rw [perscreen_measurement_traces] at ht
    rcases List.mem_append.mp ht with h | h
    · exact perscreen_screen_traces_color _ _ _ _ _ _ _ _ _ t h
    · exact ih _ _ t h

/-- Claim C7 counterexample: with ten selected compounds (one more than
the palette holds) the colour dict has no entry for the tenth compound,
and the pooled builder produces a trace for it whose colour lookup fails
(a `KeyError` in the script). -/
theorem C7_counterexample :
    sel10 ≠ [] ∧ "J" ∈ sel10 ∧ colorOf sel10 "J" = none
    ∧ ∃ t ∈ build_pooled (get_filtered_data "calcium" sel10 ["M"] table10)
        ["M"] sel10 (colorOf sel10), t.hcomp = some "J" ∧ t.color = none := by
  refine ⟨by decide, by decide, by decide, by decide⟩

/-- Claim C7 (amended): provided at most 9 compounds are selected (the
palette size), each selected compound gets exactly one colour, the one at
its selection-order index in the palette, and every colour lookup made
while building traces in either mode succeeds; with more than 9 selected
compounds the later compounds have no colour and the builders' lookups
fail. -/
theorem C7_color_assignment (sel : List String) (filtered : Table)
    (ms : List String) (hnd : sel.Nodup) (hlen : sel.length ≤ 9) :
    (∀ i (hi : i < sel.length), colorOf sel (sel.get ⟨i, hi⟩) = Set1[i]?)
    ∧ (∀ c ∈ sel, (colorOf sel c).isSome)
    ∧ (∀ t ∈ build_pooled filtered ms sel (colorOf sel), t.color.isSome)
    ∧ (∀ t ∈ build_per_screen filtered ms sel (colorOf sel), t.color.isSome) := by
  have hpal : sel.length ≤ Set1.length := by
    simpa [Set1] using hlen
  have hidx : ∀ i (hi : i < sel.length), colorOf sel (sel.get ⟨i, hi⟩) = Set1[i]? :=
    fun i hi => zip_lookup_get Set1 sel hnd hpal i hi
  have hmem : ∀ c ∈ sel, (colorOf sel c).isSome := by
    intro c hc
    obtain ⟨i, rfl⟩ := List.mem_iff_get.mp hc
    rw [hidx i.1 i.2]
    have : i.1 < Set1.length := lt_of_lt_of_le i.2 hpal
    simp [List.getElem?_eq_getElem this]
  refine ⟨hidx, hmem, ?_, ?_⟩
  · intro t ht
    obtain ⟨p, hp, hc⟩ := pooled_measurement_traces_color _ _ _ _ _ _ _ t ht
    rw [hc]
    exact hmem p hp
  · intro t ht
    obtain ⟨p, hp, hc⟩ := perscreen_measurement_traces_color _ _ _ _ _ _ _ _ t ht
    rw [hc]
    exact hmem p hp

/-- Claim C7 witness: two selected compounds receive the first two palette
colours and every trace of both modes built over the scenario table
carries a colour. -/
theorem C7_witness :
    (["A", "B"] : List String).Nodup ∧ (["A", "B"] : List String).length ≤ 9
    ∧ ((∀ i (hi : i < (["A", "B"] : List String).length),
        colorOf ["A", "B"] ((["A", "B"] : List String).get ⟨i, hi⟩) = Set1[i]?)
      ∧ (∀ c ∈ (["A", "B"] : List String), (colorOf ["A", "B"] c).isSome)
      ∧ (∀ t ∈ build_pooled scenario_table ["Rising Slope"] ["A", "B"]
          (colorOf ["A", "B"]), t.color.isSome)
      ∧ (∀ t ∈ build_per_screen scenario_table ["Rising Slope"] ["A", "B"]
          (colorOf ["A", "B"]), t.color.isSome)) :=
  ⟨by decide, by decide,
   C7_color_assignment ["A", "B"] scenario_table ["Rising Slope"] (by decide) (by decide)⟩

theorem all_concentrations_sorted (t : Table) :
    List.Sorted (· ≤ ·) (all_concentrations t) := List.sorted_insertionSort _ _

theorem all_concentrations_nodup (t : Table) : (all_concentrations t).Nodup :=
  ((List.perm_insertionSort _ _).nodup_iff).mpr (List.nodup_dedup _)

theorem mem_all_concentrations (t : Table) :
    ∀ q, q ∈ all_concentrations t ↔ ∃ row ∈ t, row.concentration = q := by
  intro q
  simp [all_concentrations, List.mem_insertionSort, List.mem_dedup,
    List.mem_map]

theorem pooled_conc_traces_shape (axis : List ℚ) (cmd : Table) (p : String)
    (col : Option String) (r : Nat) :
    ∀ cs b t, t ∈ pooled_conc_traces axis cmd p col r cs b →
      (t.mode = "markers" ∧ ∃ c n, t.conc = some c ∧
        t.x = List.replicate n ((idxOf c axis : Nat) : ℚ))
      ∨ (t.mode = "lines" ∧ t.show_legend = false ∧ t.legendgroup = none ∧
        ∃ c, t.conc = some c ∧
        t.x = [((idxOf c axis : Nat) : ℚ) - 1/5, ((idxOf c axis : Nat) : ℚ) + 1/5]) := by
  intro cs
  induction cs with
  | nil => intro b t ht; simp [pooled_conc_traces] at ht
  | cons c cs ih =>
    intro b t ht
    rw [pooled_conc_traces] at ht
    split at ht
    · exact ih b t ht
    · rcases List.mem_cons.mp ht with rfl | ht2
      · exact Or.inl ⟨rfl, c, _, rfl, rfl⟩
      · rcases List.mem_cons.mp ht2 with rfl | ht3
        · exact Or.inr ⟨rfl, rfl, rfl, c, rfl, rfl⟩
        · exact ih false t ht3

theorem pooled_compound_traces_shape (axis : List ℚ) (mdata : Table)
    (colors : String → Option String) (r : Nat) :
    ∀ ps seen t, t ∈ (pooled_compound_traces axis mdata colors r ps seen).1 →
      (t.mode = "markers" ∧ ∃ c n, t.conc = some c ∧
        t.x = List.replicate n ((idxOf c axis : Nat) : ℚ))
      ∨ (t.mode = "lines" ∧ t.show_legend = false ∧ t.legendgroup = none ∧
        ∃ c, t.conc = some c ∧
        t.x = [((idxOf c axis : Nat) : ℚ) - 1/5, ((idxOf c axis : Nat) : ℚ) + 1/5]) := by
  intro ps
  induction ps with
  | nil => intro seen t ht; simp [pooled_compound_traces] at ht
  | cons p ps ih =>
    intro seen t ht
    rw [pooled_compound_traces] at ht
    split at ht
    · exact ih seen t ht
    · rcases List.mem_append.mp ht with h | h
      · exact pooled_conc_traces_shape _ _ _ _ _ _ _ t h
      · exact ih _ t h

theorem pooled_measurement_traces_shape (filtered : Table) (axis : List ℚ)
    (colors : String → Option String) (compounds : List String) :
    ∀ ms idx seen t,
      t ∈ pooled_measurement_traces filtered axis colors compounds ms idx seen →
      (t.mode = "markers" ∧ ∃ c n, t.conc = some c ∧
        t.x = List.replicate n ((idxOf c axis : Nat) : ℚ))
      ∨ (t.mode = "lines" ∧ t.show_legend = false ∧ t.legendgroup = none ∧
        ∃ c, t.conc = some c ∧
        t.x = [((idxOf c axis : Nat) : ℚ) - 1/5, ((idxOf c axis : Nat) : ℚ) + 1/5]) := by
  intro ms
  induction ms with
  | nil => intro idx seen t ht; simp [pooled_measurement_traces] at ht
  | cons m ms ih =>
    intro idx seen t ht
    rw [pooled_measurement_traces] at ht
    rcases List.mem_append.mp ht with h | h
    · exact pooled_compound_traces_shape _ _ _ _ _ _ t h
    · exact ih _ _ t h

theorem perscreen_compound_traces_shape (axis : List ℚ) (mdata : Table)
    (colors : String → Option String) (r c : Nat) :
    ∀ ps seen t, t ∈ (perscreen_compound_traces axis mdata colors r c ps seen).1 →
      t.x = t.customdata.map (fun q => ((idxOf q axis : Nat) : ℚ)) := by
  intro ps
  induction ps with
  | nil => intro seen t ht; simp [perscreen_compound_traces] at ht
  | cons p ps ih =>
    intro seen t ht
    rw [perscreen_compound_traces] at ht
    split at ht
    · exact ih seen t ht
    · rcases List.mem_cons.mp ht with rfl | h
      · simp [List.map_map]
      · exact ih _ t h

theorem perscreen_screen_traces_shape (filtered : Table) (axis : List ℚ)
    (colors : String → Option String) (compounds : List String) (m : String)
    (r : Nat) :
    ∀ ss sIdx seen t,
      t ∈ (perscreen_screen_traces filtered axis colors compounds m r ss sIdx seen).1 →
      t.x = t.customdata.map (fun q => ((idxOf q axis : Nat) : ℚ)) := by
  intro ss
  induction ss with
  | nil => intro sIdx seen t ht; simp [perscreen_screen_traces] at ht
  | cons sc ss ih =>
    intro sIdx seen t ht
    rw [perscreen_screen_traces] at ht
    rcases List.mem_append.mp ht with h | h
    · exact perscreen_compound_traces_shape _ _ _ _ _ _ _ t h
    · exact ih _ _ t h

theorem perscreen_measurement_traces_shape (filtered : Table) (axis : List ℚ)
    (colors : String → Option String) (compounds : List String)
    (screens : List Int) :
    ∀ ms idx seen t,
      t ∈ perscreen_measurement_traces filtered axis colors compounds screens ms idx seen →
      t.x = t.customdata.map (fun q => ((idxOf q axis : Nat) : ℚ)) := by
  intro ms
  induction ms with
  | nil => intro idx seen t ht; simp [perscreen_measurement_traces] at ht
  | cons m ms ih =>
    intro idx seen t ht
    rw [perscreen_measurement_traces] at ht
    rcases List.mem_append.mp ht with h | h
    · exact perscreen_screen_traces_shape _ _ _ _ _ _ _ _ _ t h
    · exact ih _ _ t h

/-- Claim C5 counterexample: on a table whose concentrations are 10 and 2,
the axis the code builds is the numerically sorted [2, 10], not the
lexicographically sorted sequence, which would be [10, 2] because the
string "10.0" sorts before "2.0". -/
theorem C5_counterexample :
    all_concentrations table_2_10 = [2, 10]
    ∧ lex_concentrations table_2_10 = [10, 2]
    ∧ pyFloatStr 2 = "2.0" ∧ pyFloatStr 10 = "10.0"
    ∧ all_concentrations table_2_10 ≠ lex_concentrations table_2_10 := by
  refine ⟨by decide, by decide, by decide, by decide, by decide⟩

/-- Claim C5 (amended): the concentration axis is the ascending
numerically sorted sequence of the distinct concentration values of the
entire filtered table, built once per filter pass, and in both modes
every trace places a concentration at its index in that shared axis:
pooled markers sit at the axis index of their concentration, pooled mean
segments are centred on it, and per-screen traces map each per-point
concentration to its axis index. -/
theorem C5_shared_concentration_axis (filtered : Table) (ms cs : List String)
    (colors : String → Option String) :
    List.Sorted (· ≤ ·) (all_concentrations filtered)
    ∧ (all_concentrations filtered).Nodup
    ∧ (∀ q, q ∈ all_concentrations filtered ↔ ∃ row ∈ filtered, row.concentration = q)
    ∧ (∀ t ∈ build_pooled filtered ms cs colors,
        (t.mode = "markers" ∧ ∃ c n, t.conc = some c ∧
          t.x = List.replicate n ((idxOf c (all_concentrations filtered) : Nat) : ℚ))
        ∨ (t.mode = "lines" ∧ ∃ c, t.conc = some c ∧
          t.x = [((idxOf c (all_concentrations filtered) : Nat) : ℚ) - 1/5,
                 ((idxOf c (all_concentrations filtered) : Nat) : ℚ) + 1/5]))
    ∧ (∀ t ∈ build_per_screen filtered ms cs colors,
        t.x = t.customdata.map (fun q => ((idxOf q (all_concentrations filtered) : Nat) : ℚ))) :=
  ⟨all_concentrations_sorted filtered, all_concentrations_nodup filtered,
   mem_all_concentrations filtered,
   fun t ht => (pooled_measurement_traces_shape _ _ _ _ _ _ _ t ht).imp id
     (fun h => ⟨h.1, h.2.2.2⟩),
   fun t ht => perscreen_measurement_traces_shape _ _ _ _ _ _ _ _ t ht⟩

theorem legendCount_append (c : String) (l1 l2 : List Series) :
    legendCount c (l1 ++ l2) = legendCount c l1 + legendCount c l2 :=
  List.countP_append _ _ _

theorem appearsIn_append (c : String) (l1 l2 : List Series) :
    appearsIn c (l1 ++ l2) ↔ appearsIn c l1 ∨ appearsIn c l2 := by
  simp [appearsIn, or_and_right, exists_or]

theorem legendCount_pooled_conc (axis : List ℚ) (cmd : Table) (p : String)
    (col : Option String) (r : Nat) (c : String) :
    ∀ cs b, legendCount c (pooled_conc_traces axis cmd p col r cs b) =
      if c = p ∧ b = true ∧
          ∃ c' ∈ cs, cmd.filter (fun row => row.concentration = c') ≠ [] then
        1 else 0 := by
  intro cs
  induction cs with
  | nil => intro b; simp [pooled_conc_traces, legendCount]
  | cons c0 cs ih =>
    intro b
    rw [pooled_conc_traces]
    split
    · rename_i hemp
      rw [ih b]
      have hiff : (∃ c' ∈ cs, cmd.filter (fun row => row.concentration = c') ≠ []) ↔
          (∃ c' ∈ c0 :: cs, cmd.filter (fun row => row.concentration = c') ≠ []) := by
        constructor
        · rintro ⟨c', h, hne⟩
          exact ⟨c', List.mem_cons_of_mem _ h, hne⟩
        · rintro ⟨c', hc', hne⟩
          rcases List.mem_cons.mp hc' with rfl | h
          · exact absurd hemp hne
          · exact ⟨c', h, hne⟩
      simp only [hiff]
    · rename_i hemp
      simp only [legendCount] at ih ⊢
      simp only [List.countP_cons]
      have h0 : (if c = p ∧ false = true ∧
          ∃ c' ∈ cs, cmd.filter (fun row => row.concentration = c') ≠ [] then 1 else 0) = 0 := by
        simp
      rw [ih false, h0]
      by_cases hcp : c = p
      · subst hcp
        cases b
        · have hnc : ¬ (c = c ∧ false = true ∧
              ∃ c' ∈ c0 :: cs, cmd.filter (fun row => row.concentration = c') ≠ []) := by
            simp
          rw [if_neg hnc]
          simp
        · have hc2 : c = c ∧ true = true ∧
              ∃ c' ∈ c0 :: cs, cmd.filter (fun row => row.concentration = c') ≠ [] :=
            ⟨rfl, rfl, c0, List.mem_cons_self _ _, hemp⟩
          rw [if_pos hc2]
          simp
      · have hnc : ¬ (c = p ∧ b = true ∧
            ∃ c' ∈ c0 :: cs, cmd.filter (fun row => row.concentration = c') ≠ []) :=
          fun h => hcp h.1
        rw [if_neg hnc]
        simp [Ne.symm hcp]

theorem appearsIn_pooled_conc (axis : List ℚ) (cmd : Table) (p : String)
    (col : Option String) (r : Nat) (c : String) :
    ∀ cs b, appearsIn c (pooled_conc_traces axis cmd p col r cs b) ↔
      (c = p ∧ ∃ c' ∈ cs, cmd.filter (fun row => row.concentration = c') ≠ []) := by
  intro cs
  induction cs with
  | nil => intro b; simp [pooled_conc_traces, appearsIn]
  | cons c0 cs ih =>
    intro b
    rw [pooled_conc_traces]
    split
    · rename_i hemp
      rw [ih b]
      constructor
      · rintro ⟨rfl, c', h, hne⟩
        exact ⟨rfl, c', List.mem_cons_of_mem _ h, hne⟩
      · rintro ⟨rfl, c', hc', hne⟩
        rcases List.mem_cons.mp hc' with rfl | h
        · exact absurd hemp hne
        · exact ⟨rfl, c', h, hne⟩
    · rename_i hemp
      constructor
      · rintro ⟨t, ht, hg⟩
        rcases List.mem_cons.mp ht with rfl | ht2
        · simp only [Option.some_inj] at hg
          exact ⟨hg.symm, c0, List.mem_cons_self _ _, hemp⟩
        · rcases List.mem_cons.mp ht2 with rfl | ht3
          · simp at hg
          · obtain ⟨rfl, c', h, hne⟩ := (ih false).mp ⟨t, ht3, hg⟩
            exact ⟨rfl, c', List.mem_cons_of_mem _ h, hne⟩
      · rintro ⟨rfl, c', hc', hne⟩
        refine ⟨_, List.mem_cons_self _ _, rfl⟩

theorem pooled_conc_traces_tags (axis : List ℚ) (cmd : Table) (p : String)
    (col : Option String) (r : Nat) :
    ∀ cs b t, t ∈ pooled_conc_traces axis cmd p col r cs b →
      t.hcomp = some p ∧ t.row = r := by
  intro cs
  induction cs with
  | nil => intro b t ht; simp [pooled_conc_traces] at ht
  | cons c0 cs ih =>
    intro b t ht
    rw [pooled_conc_traces] at ht
    split at ht
    · exact ih b t ht
    · rcases List.mem_cons.mp ht with rfl | ht2
      · exact ⟨rfl, rfl⟩
      · rcases List.mem_cons.mp ht2 with rfl | ht3
        · exact ⟨rfl, rfl⟩
        · exact ih false t ht3

theorem pooled_compound_legend (axis : List ℚ) (mdata : Table)
    (colors : String → Option String) (r : Nat)
    (H : ∀ row ∈ mdata, row.concentration ∈ axis) :
    ∀ ps seen,
      (∀ c, c ∈ seen → c ∈ (pooled_compound_traces axis mdata colors r ps seen).2)
      ∧ (∀ c, c ∈ seen →
          legendCount c (pooled_compound_traces axis mdata colors r ps seen).1 = 0)
      ∧ (∀ c, c ∉ seen →
          legendCount c (pooled_compound_traces axis mdata colors r ps seen).1 =
            if c ∈ (pooled_compound_traces axis mdata colors r ps seen).2 then 1 else 0)
      ∧ (∀ c, c ∉ seen →
          (appearsIn c (pooled_compound_traces axis mdata colors r ps seen).1 ↔
            c ∈ (pooled_compound_traces axis mdata colors r ps seen).2)) := by
  intro ps
  induction ps with
  | nil =>
    intro seen
    refine ⟨fun c hc => hc, fun c _ => by simp [pooled_compound_traces, legendCount],
      fun c hc => by simp [pooled_compound_traces, legendCount, hc], fun c hc => ?_⟩
    simp [pooled_compound_traces, appearsIn, hc]
  | cons p ps ih =>
    intro seen
    rw [pooled_compound_traces]
    split
    · exact ih seen
    · rename_i hemp
      have hex : ∃ c' ∈ axis,
          (mdata.filter (fun row => row.compound = p)).filter
            (fun row => row.concentration = c') ≠ [] := by
        obtain ⟨row, hrow⟩ := List.exists_mem_of_ne_nil _ hemp
        have hrow_md : row ∈ mdata := (List.mem_filter.mp hrow).1
        refine ⟨row.concentration, H row hrow_md,
          List.ne_nil_of_mem (List.mem_filter.mpr ⟨hrow, by simp⟩)⟩
      by_cases hp : p ∈ seen
      · -- the compound is already in the legend set
        simp only [if_pos hp]
        obtain ⟨ih1, ih2, ih3, ih4⟩ := ih seen
        have hb : decide (p ∉ seen) = false := by simp [hp]
        refine ⟨fun c hc => ih1 c hc, fun c hc => ?_, fun c hc => ?_, fun c hc => ?_⟩
        · rw [legendCount_append, legendCount_pooled_conc, ih2 c hc]
          rw [if_neg ?_]
          rintro ⟨rfl, hbt, _⟩
          rw [hb] at hbt
          exact Bool.false_ne_true hbt
        · rw [legendCount_append, legendCount_pooled_conc, ih3 c hc]
          rw [if_neg ?_]
          · simp
          · rintro ⟨rfl, hbt, _⟩
            rw [hb] at hbt
            exact Bool.false_ne_true hbt
        · rw [appearsIn_append, appearsIn_pooled_conc, ih4 c hc]
          constructor
          · rintro (⟨rfl, _⟩ | h)
            · exact absurd hp hc
            · exact h
          · exact fun h => Or.inr h
      · -- first occurrence of the compound
        simp only [if_neg hp]
        obtain ⟨ih1, ih2, ih3, ih4⟩ := ih (p :: seen)
        have hb : decide (p ∉ seen) = true := by simp [hp]
        have hp1 : p ∈ (pooled_compound_traces axis mdata colors r ps (p :: seen)).2 :=
          ih1 p (List.mem_cons_self _ _)
        refine ⟨fun c hc => ih1 c (List.mem_cons_of_mem _ hc), fun c hc => ?_,
          fun c hc => ?_, fun c hc => ?_⟩
        · rw [legendCount_append, legendCount_pooled_conc,
            ih2 c (List.mem_cons_of_mem _ hc)]
          rw [if_neg ?_]
          rintro ⟨rfl, _, _⟩
          exact hp hc
        · by_cases hcp : c = p
          · subst hcp
            rw [legendCount_append, legendCount_pooled_conc,
              if_pos ⟨rfl, hb, hex⟩, ih2 c (List.mem_cons_self _ _), if_pos hp1]
          · rw [legendCount_append, legendCount_pooled_conc,
              if_neg (fun h => hcp h.1),
              ih3 c (by simp [hcp, hc]), Nat.zero_add]
        · by_cases hcp : c = p
          · subst hcp
            rw [appearsIn_append, appearsIn_pooled_conc]
            constructor
            · intro _
              exact hp1
            · intro _
              exact Or.inl ⟨rfl, hex⟩
          · rw [appearsIn_append, appearsIn_pooled_conc,
              ih4 c (by simp [hcp, hc])]
            constructor
            · rintro (⟨rfl, _⟩ | h)
              · exact absurd rfl hcp
              · exact h
            · exact fun h => Or.inr h

theorem pooled_measurement_legend (filtered : Table) (axis : List ℚ)
    (colors : String → Option String) (compounds : List String)
    (H : ∀ row ∈ filtered, row.concentration ∈ axis) :
    ∀ ms idx seen,
      (∀ c, c ∈ seen →
        legendCount c
          (pooled_measurement_traces filtered axis colors compounds ms idx seen) = 0)
      ∧ (∀ c, c ∉ seen →
        legendCount c
          (pooled_measurement_traces filtered axis colors compounds ms idx seen) =
        if appearsIn c
            (pooled_measurement_traces filtered axis colors compounds ms idx seen)
          then 1 else 0) := by
  intro ms
  induction ms with
  | nil =>
    intro idx seen
    constructor <;> intro c hc <;>
      simp [pooled_measurement_traces, legendCount, appearsIn]
  | cons m ms ih =>
    intro idx seen
    rw [pooled_measurement_traces]
    have Hm : ∀ row ∈ filtered.filter (fun row => row.measurement_name = m),
        row.concentration ∈ axis :=
      fun row hrow => H row (List.mem_filter.mp hrow).1
    obtain ⟨s1, s2, s3, s4⟩ :=
      pooled_compound_legend axis _ colors (idx + 1) Hm compounds seen
    obtain ⟨r1, r2⟩ := ih (idx + 1)
      ((pooled_compound_traces axis
        (filtered.filter (fun row => row.measurement_name = m)) colors (idx + 1)
        compounds seen).2)
    constructor
    · intro c hc
      rw [legendCount_append, s2 c hc, r1 c (s1 c hc)]
    · intro c hc
      rw [legendCount_append]
      by_cases hs : c ∈ (pooled_compound_traces axis
          (filtered.filter (fun row => row.measurement_name = m)) colors (idx + 1)
          compounds seen).2
      · rw [s3 c hc, if_pos hs, r1 c hs,
          if_pos ((appearsIn_append _ _ _).mpr (Or.inl ((s4 c hc).mpr hs)))]
      · rw [s3 c hc, if_neg hs, r2 c hs]
        by_cases har : appearsIn c (pooled_measurement_traces filtered axis colors
            compounds ms (idx + 1)
            ((pooled_compound_traces axis
              (filtered.filter (fun row => row.measurement_name = m)) colors (idx + 1)
              compounds seen).2))
        · rw [if_pos har, if_pos ((appearsIn_append _ _ _).mpr (Or.inr har))]
        · rw [if_neg har, if_neg ?_]
          intro h
          rcases (appearsIn_append _ _ _).mp h with h1 | h1
          · exact hs ((s4 c hc).mp h1)
          · exact har h1

theorem legendCount_cons (c : String) (t : Series) (l : List Series) :
    legendCount c (t :: l) = legendCount c l +
      if t.legendgroup = some c ∧ t.show_legend = true then 1 else 0 := by
  simp [legendCount, List.countP_cons]

theorem appearsIn_cons (c : String) (t : Series) (l : List Series) :
    appearsIn c (t :: l) ↔ t.legendgroup = some c ∨ appearsIn c l := by
  simp [appearsIn, List.mem_cons, or_and_right, exists_or, exists_eq_left]

theorem perscreen_compound_legend (axis : List ℚ) (mdata : Table)
    (colors : String → Option String) (r cidx : Nat) :
    ∀ ps seen,
      (∀ c, c ∈ seen →
        c ∈ (perscreen_compound_traces axis mdata colors r cidx ps seen).2)
      ∧ (∀ c, c ∈ seen →
        legendCount c (perscreen_compound_traces axis mdata colors r cidx ps seen).1 = 0)
      ∧ (∀ c, c ∉ seen →
        legendCount c (perscreen_compound_traces axis mdata colors r cidx ps seen).1 =
          if c ∈ (perscreen_compound_traces axis mdata colors r cidx ps seen).2
            then 1 else 0)
      ∧ (∀ c, c ∉ seen →
        (appearsIn c (perscreen_compound_traces axis mdata colors r cidx ps seen).1 ↔
          c ∈ (perscreen_compound_traces axis mdata colors r cidx ps seen).2)) := by
  intro ps
  induction ps with
  | nil =>
    intro seen
    refine ⟨fun c hc => hc, fun c _ => by simp [perscreen_compound_traces, legendCount],
      fun c hc => by simp [perscreen_compound_traces, legendCount, hc], fun c hc => ?_⟩
    simp [perscreen_compound_traces, appearsIn, hc]
  | cons p ps ih =>
    intro seen
    rw [perscreen_compound_traces]
    split
    · exact ih seen
    · by_cases hp : p ∈ seen
      · simp only [if_pos hp]
        obtain ⟨ih1, ih2, ih3, ih4⟩ := ih seen
        refine ⟨fun c hc => ih1 c hc, fun c hc => ?_, fun c hc => ?_, fun c hc => ?_⟩
        · rw [legendCount_cons, ih2 c hc]
          simp [hp]
        · rw [legendCount_cons, ih3 c hc]
          simp [hp]
        · rw [appearsIn_cons, ih4 c hc]
          have hne : p ≠ c := fun h => hc (h ▸ hp)
          simp [hne]
      · simp only [if_neg hp]
        obtain ⟨ih1, ih2, ih3, ih4⟩ := ih (p :: seen)
        have hp1 : p ∈ (perscreen_compound_traces axis mdata colors r cidx ps (p :: seen)).2 :=
          ih1 p (List.mem_cons_self _ _)
        refine ⟨fun c hc => ih1 c (List.mem_cons_of_mem _ hc), fun c hc => ?_,
          fun c hc => ?_, fun c hc => ?_⟩
        · rw [legendCount_cons, ih2 c (List.mem_cons_of_mem _ hc)]
          have hne : p ≠ c := fun h => hp (h ▸ hc)
          simp [hne]
        · by_cases hcp : c = p
          · subst hcp
            rw [legendCount_cons, ih2 c (List.mem_cons_self _ _), if_pos hp1]
            simp [hp]
          · rw [legendCount_cons, ih3 c (by simp [hcp, hc])]
            simp [Ne.symm hcp]
        · by_cases hcp : c = p
          · subst hcp
            rw [appearsIn_cons]
            exact ⟨fun _ => hp1, fun _ => Or.inl rfl⟩
          · rw [appearsIn_cons, ih4 c (by simp [hcp, hc])]
            simp [Ne.symm hcp]

theorem perscreen_screen_legend (filtered : Table) (axis : List ℚ)
    (colors : String → Option String) (compounds : List String) (m : String)
    (r : Nat) :
    ∀ ss sIdx seen,
      (∀ c, c ∈ seen →
        c ∈ (perscreen_screen_traces filtered axis colors compounds m r ss sIdx seen).2)
      ∧ (∀ c, c ∈ seen →
        legendCount c
          (perscreen_screen_traces filtered axis colors compounds m r ss sIdx seen).1 = 0)
      ∧ (∀ c, c ∉ seen →
        legendCount c
          (perscreen_screen_traces filtered axis colors compounds m r ss sIdx seen).1 =
        if c ∈ (perscreen_screen_traces filtered axis colors compounds m r ss sIdx seen).2
          then 1 else 0)
      ∧ (∀ c, c ∉ seen →
        (appearsIn c
          (perscreen_screen_traces filtered axis colors compounds m r ss sIdx seen).1 ↔
          c ∈ (perscreen_screen_traces filtered axis colors compounds m r ss sIdx seen).2)) := by
  intro ss
  induction ss with
  | nil =>
    intro sIdx seen
    refine ⟨fun c hc => hc, fun c _ => by simp [perscreen_screen_traces, legendCount],
      fun c hc => by simp [perscreen_screen_traces, legendCount, hc], fun c hc => ?_⟩
    simp [perscreen_screen_traces, appearsIn, hc]
  | cons sc ss ih =>
    intro sIdx seen
    rw [perscreen_screen_traces]
    obtain ⟨s1, s2, s3, s4⟩ := perscreen_compound_legend axis
      ((filtered.filter (fun row => row.screen = sc)).filter
        (fun row => row.measurement_name = m)) colors r (sIdx + 1) compounds seen
    obtain ⟨r1, r2, r3, r4⟩ := ih (sIdx + 1)
      ((perscreen_compound_traces axis
        ((filtered.filter (fun row => row.screen = sc)).filter
          (fun row => row.measurement_name = m)) colors r (sIdx + 1) compounds seen).2)
    refine ⟨fun c hc => r1 c (s1 c hc), fun c hc => ?_, fun c hc => ?_, fun c hc => ?_⟩
    · rw [legendCount_append, s2 c hc, r2 c (s1 c hc)]
    · by_cases hs : c ∈ (perscreen_compound_traces axis
          ((filtered.filter (fun row => row.screen = sc)).filter
            (fun row => row.measurement_name = m)) colors r (sIdx + 1) compounds seen).2
      · rw [legendCount_append, s3 c hc, if_pos hs, r2 c hs, if_pos (r1 c hs)]
      · rw [legendCount_append, s3 c hc, if_neg hs, r3 c hs]
        simp
    · by_cases hs : c ∈ (perscreen_compound_traces axis
          ((filtered.filter (fun row => row.screen = sc)).filter
            (fun row => row.measurement_name = m)) colors r (sIdx + 1) compounds seen).2
      · constructor
        · intro _
          exact r1 c hs
        · intro _
          exact (appearsIn_append _ _ _).mpr (Or.inl ((s4 c hc).mpr hs))
      · rw [appearsIn_append]
        constructor
        · rintro (h | h)
          · exact absurd ((s4 c hc).mp h) hs
          · exact (r4 c hs).mp h
        · intro h
          exact Or.inr ((r4 c hs).mpr h)

theorem perscreen_measurement_legend (filtered : Table) (axis : List ℚ)
    (colors : String → Option String) (compounds : List String)
    (screens : List Int) :
    ∀ ms idx seen,
      (∀ c, c ∈ seen →
        legendCount c (perscreen_measurement_traces filtered axis colors compounds
          screens ms idx seen) = 0)
      ∧ (∀ c, c ∉ seen →
        legendCount c (perscreen_measurement_traces filtered axis colors compounds
          screens ms idx seen) =
        if appearsIn c (perscreen_measurement_traces filtered axis colors compounds
            screens ms idx seen)
          then 1 else 0) := by
  intro ms
  induction ms with
  | nil =>
    intro idx seen
    constructor <;> intro c hc <;>
      simp [perscreen_measurement_traces, legendCount, appearsIn]
  | cons m ms ih =>
    intro idx seen
    rw [perscreen_measurement_traces]
    obtain ⟨s1, s2, s3, s4⟩ := perscreen_screen_legend filtered axis colors compounds
      m (idx + 1) screens 0 seen
    obtain ⟨r1, r2⟩ := ih (idx + 1)
      ((perscreen_screen_traces filtered axis colors compounds m (idx + 1)
        screens 0 seen).2)
    constructor
    · intro c hc
      rw [legendCount_append, s2 c hc, r1 c (s1 c hc)]
    · intro c hc
      rw [legendCount_append]
      by_cases hs : c ∈ (perscreen_screen_traces filtered axis colors compounds
          m (idx + 1) screens 0 seen).2
      · rw [s3 c hc, if_pos hs, r1 c hs,
          if_pos ((appearsIn_append _ _ _).mpr (Or.inl ((s4 c hc).mpr hs)))]
      · rw [s3 c hc, if_neg hs, r2 c hs]
        by_cases har : appearsIn c (perscreen_measurement_traces filtered axis colors
            compounds screens ms (idx + 1)
            ((perscreen_screen_traces filtered axis colors compounds m (idx + 1)
              screens 0 seen).2))
        · rw [if_pos har, if_pos ((appearsIn_append _ _ _).mpr (Or.inr har))]
        · rw [if_neg har, if_neg ?_]
          intro h
          rcases (appearsIn_append _ _ _).mp h with h1 | h1
          · exact hs ((s4 c hc).mp h1)
          · exact har h1

/-- Claim C4: in both modes, every compound that appears in the chart
spec has exactly one series with `show_legend = true` in its legend
group across the whole spec, and every pooled-mode mean segment carries
`show_legend = false`. -/
theorem C4_legend_dedup (filtered : Table) (ms cs : List String)
    (colors : String → Option String) (c : String) :
    (appearsIn c (build_pooled filtered ms cs colors) →
      legendCount c (build_pooled filtered ms cs colors) = 1)
    ∧ (appearsIn c (build_per_screen filtered ms cs colors) →
      legendCount c (build_per_screen filtered ms cs colors) = 1)
    ∧ (∀ t ∈ build_pooled filtered ms cs colors, t.mode = "lines" →
        t.show_legend = false) := by
  refine ⟨?_, ?_, ?_⟩
  · intro hap
    have H : ∀ row ∈ filtered, row.concentration ∈ all_concentrations filtered :=
      fun row hrow => (mem_all_concentrations filtered _).mpr ⟨row, hrow, rfl⟩
    obtain ⟨_, r2⟩ := pooled_measurement_legend filtered _ colors cs H ms 0 []
    rw [build_pooled] at hap ⊢
    rw [r2 c (List.not_mem_nil c), if_pos hap]
  · intro hap
    obtain ⟨_, r2⟩ := perscreen_measurement_legend filtered
      (all_concentrations filtered) colors cs (available_screens filtered) ms 0 []
    rw [build_per_screen] at hap ⊢
    rw [r2 c (List.not_mem_nil c), if_pos hap]
  · intro t ht hmode
    rw [build_pooled] at ht
    rcases pooled_measurement_traces_shape _ _ _ _ _ _ _ t ht with ⟨hm, _⟩ | ⟨_, h, _⟩
    · rw [hmode] at hm
      simp at hm
    · exact h

/-- Claim C4 witness: over the two-row scenario table with one compound
selected, compound A appears in both specs and carries exactly one
legend-visible series in each. -/
theorem C4_witness :
    (appearsIn "A" (build_pooled scenario_table ["Rising Slope"] ["A"]
      (colorOf ["A"])) ∧
     appearsIn "A" (build_per_screen scenario_table ["Rising Slope"] ["A"]
      (colorOf ["A"])))
    ∧ legendCount "A" (build_pooled scenario_table ["Rising Slope"] ["A"]
        (colorOf ["A"])) = 1
    ∧ legendCount "A" (build_per_screen scenario_table ["Rising Slope"] ["A"]
        (colorOf ["A"])) = 1 :=
  ⟨⟨by decide, by decide⟩,
   (C4_legend_dedup scenario_table ["Rising Slope"] ["A"] (colorOf ["A"]) "A").1
     (by decide),
   (C4_legend_dedup scenario_table ["Rising Slope"] ["A"] (colorOf ["A"]) "A").2.1
     (by decide)⟩

theorem pooled_conc_traces_mem (axis : List ℚ) (cmd : Table) (p : String)
    (col : Option String) (r : Nat) (c : ℚ) :
    ∀ cs b, c ∈ cs → cmd.filter (fun row => row.concentration = c) ≠ [] →
      ∃ bf : Bool,
        ({ x := List.replicate (cmd.filter (fun row => row.concentration = c)).length
              ((idxOf c axis : Nat) : ℚ)
           y := (cmd.filter (fun row => row.concentration = c)).map (·.average)
           error_y := none
           mode := "markers"
           color := col
           legendgroup := some p
           show_legend := bf
           name := if bf then some p else none
           hcomp := some p
           conc := some c
           customdata := []
           row := r
           col := 1 } : Series) ∈ pooled_conc_traces axis cmd p col r cs b
        ∧ ({ x := [((idxOf c axis : Nat) : ℚ) - 1/5, ((idxOf c axis : Nat) : ℚ) + 1/5]
             y := [listMean ((cmd.filter (fun row => row.concentration = c)).map (·.average)),
                   listMean ((cmd.filter (fun row => row.concentration = c)).map (·.average))]
             error_y := none
             mode := "lines"
             color := col
             legendgroup := none
             show_legend := false
             name := none
             hcomp := some p
             conc := some c
             customdata := []
             row := r
             col := 1 } : Series) ∈ pooled_conc_traces axis cmd p col r cs b := by
  intro cs
  induction cs with
  | nil => intro b hc; simp at hc
  | cons c0 cs ih =>
    intro b hc hne
    rcases List.mem_cons.mp hc with rfl | hc2
    · rw [pooled_conc_traces, if_neg hne]
      exact ⟨b, List.mem_cons_self _ _,
        List.mem_cons_of_mem _ (List.mem_cons_self _ _)⟩
    · rw [pooled_conc_traces]
      split
      · exact ih b hc2 hne
      · obtain ⟨bf, h1, h2⟩ := ih false hc2 hne
        exact ⟨bf, List.mem_cons_of_mem _ (List.mem_cons_of_mem _ h1),
          List.mem_cons_of_mem _ (List.mem_cons_of_mem _ h2)⟩

theorem pooled_compound_traces_mem (axis : List ℚ) (mdata : Table)
    (colors : String → Option String) (r : Nat) (p : String) :
    ∀ ps seen, p ∈ ps → mdata.filter (fun row => row.compound = p) ≠ [] →
      ∃ b0 : Bool, ∀ t ∈ pooled_conc_traces axis
          (mdata.filter (fun row => row.compound = p)) p (colors p) r axis b0,
        t ∈ (pooled_compound_traces axis mdata colors r ps seen).1 := by
  intro ps
  induction ps with
  | nil => intro seen hp; simp at hp
  | cons p0 ps ih =>
    intro seen hp hne
    rcases List.mem_cons.mp hp with rfl | hp2
    · rw [pooled_compound_traces, if_neg hne]
      exact ⟨decide (p ∉ seen), fun t ht => List.mem_append_left _ ht⟩
    · rw [pooled_compound_traces]
      split
      · exact ih seen hp2 hne
      · obtain ⟨b0, hsub⟩ := ih _ hp2 hne
        exact ⟨b0, fun t ht => List.mem_append_right _ (hsub t ht)⟩

theorem pooled_measurement_traces_mem (filtered : Table) (axis : List ℚ)
    (colors : String → Option String) (compounds : List String) :
    ∀ ms idx seen i (hi : i < ms.length),
      ∃ sn : List String, ∀ t ∈ (pooled_compound_traces axis
          (filtered.filter (fun row => row.measurement_name = ms.get ⟨i, hi⟩))
          colors (idx + i + 1) compounds sn).1,
        t ∈ pooled_measurement_traces filtered axis colors compounds ms idx seen := by
  intro ms
  induction ms with
  | nil => intro idx seen i hi; simp at hi
  | cons m ms ih =>
    intro idx seen i hi
    cases i with
    | zero =>
      rw [pooled_measurement_traces]
      exact ⟨seen, fun t ht => List.mem_append_left _ ht⟩
    | succ j =>
      have hj : j < ms.length := by simpa using hi
      obtain ⟨sn, hsub⟩ := ih (idx + 1)
        ((pooled_compound_traces axis
          (filtered.filter (fun row => row.measurement_name = m)) colors (idx + 1)
          compounds seen).2) j hj
      refine ⟨sn, fun t ht => ?_⟩
      rw [pooled_measurement_traces]
      simp only [List.get_cons_succ] at ht
      have heq : idx + (j + 1) + 1 = idx + 1 + j + 1 := by omega
      rw [heq] at ht
      exact List.mem_append_right _ (hsub t ht)

theorem countP_pooled_conc (axis : List ℚ) (cmd : Table) (p : String)
    (col : Option String) (r : Nat) (R : Nat) (q : String) (c : ℚ) (m0 : String)
    (hm : m0 = "markers" ∨ m0 = "lines") :
    ∀ cs b, cs.Nodup →
      (pooled_conc_traces axis cmd p col r cs b).countP (tracePred R q c m0) =
      if r = R ∧ p = q ∧ c ∈ cs ∧
          cmd.filter (fun row => row.concentration = c) ≠ [] then 1 else 0 := by
  intro cs
  induction cs with
  | nil =>
    intro b _
    simp [pooled_conc_traces]
  | cons c0 cs ih =>
    intro b hnd
    have htl := (List.nodup_cons.mp hnd).2
    have hc0 := (List.nodup_cons.mp hnd).1
    rw [pooled_conc_traces]
    split
    · rename_i hemp
      rw [ih b htl]
      refine if_congr ?_ rfl rfl
      constructor
      · rintro ⟨h1, h2, h3, h4⟩
        exact ⟨h1, h2, List.mem_cons_of_mem _ h3, h4⟩
      · rintro ⟨h1, h2, h3, h4⟩
        rcases List.mem_cons.mp h3 with rfl | h3
        · exact absurd hemp h4
        · exact ⟨h1, h2, h3, h4⟩
    · rename_i hemp
      simp only [List.countP_cons]
      rw [ih false htl]
      by_cases hcc : c = c0
      · subst hcc
        rw [if_neg (fun h => hc0 h.2.2.1)]
        rcases hm with rfl | rfl <;>
          by_cases hR : r = R <;> by_cases hq : p = q <;>
            simp [tracePred, hR, hq, hemp]
      · have hrec : ∀ z : Prop, (r = R ∧ p = q ∧ c ∈ cs ∧ z) ↔
            (r = R ∧ p = q ∧ c ∈ c0 :: cs ∧ z) := by
          intro z
          constructor
          · rintro ⟨h1, h2, h3, h4⟩
            exact ⟨h1, h2, List.mem_cons_of_mem _ h3, h4⟩
          · rintro ⟨h1, h2, h3, h4⟩
            rcases List.mem_cons.mp h3 with rfl | h3
            · exact absurd rfl hcc
            · exact ⟨h1, h2, h3, h4⟩
        rw [if_congr (hrec _) rfl rfl]
        rcases hm with rfl | rfl <;>
          simp [tracePred, hcc, Ne.symm hcc]

theorem pooled_compound_traces_row (axis : List ℚ) (mdata : Table)
    (colors : String → Option String) (r : Nat) :
    ∀ ps seen t, t ∈ (pooled_compound_traces axis mdata colors r ps seen).1 →
      t.row = r := by
  intro ps
  induction ps with
  | nil => intro seen t ht; simp [pooled_compound_traces] at ht
  | cons p ps ih =>
    intro seen t ht
    rw [pooled_compound_traces] at ht
    split at ht
    · exact ih seen t ht
    · rcases List.mem_append.mp ht with h | h
      · exact (pooled_conc_traces_tags _ _ _ _ _ _ _ t h).2
      · exact ih _ t h

theorem pooled_measurement_traces_row_lb (filtered : Table) (axis : List ℚ)
    (colors : String → Option String) (compounds : List String) :
    ∀ ms idx seen t,
      t ∈ pooled_measurement_traces filtered axis colors compounds ms idx seen →
      idx + 1 ≤ t.row := by
  intro ms
  induction ms with
  | nil => intro idx seen t ht; simp [pooled_measurement_traces] at ht
  | cons m ms ih =>
    intro idx seen t ht
    rw [pooled_measurement_traces] at ht
    rcases List.mem_append.mp ht with h | h
    · exact le_of_eq (pooled_compound_traces_row _ _ _ _ _ _ t h).symm
    · have := ih (idx + 1) _ t h
      omega

theorem countP_pooled_compound (axis : List ℚ) (mdata : Table)
    (colors : String → Option String) (r R : Nat) (q : String) (c : ℚ)
    (m0 : String) (hm : m0 = "markers" ∨ m0 = "lines") (hax : axis.Nodup)
    (H : ∀ row ∈ mdata, row.concentration ∈ axis) :
    ∀ ps seen, ps.Nodup →
      (pooled_compound_traces axis mdata colors r ps seen).1.countP
        (tracePred R q c m0) =
      if r = R ∧ q ∈ ps ∧
          (mdata.filter (fun row => row.compound = q)).filter
            (fun row => row.concentration = c) ≠ [] then 1 else 0 := by
  intro ps
  induction ps with
  | nil =>
    intro seen _
    simp [pooled_compound_traces]
  | cons p0 ps ih =>
    intro seen hnd
    have htl := (List.nodup_cons.mp hnd).2
    have hp0 := (List.nodup_cons.mp hnd).1
    rw [pooled_compound_traces]
    split
    · rename_i hemp
      rw [ih seen htl]
      refine if_congr ?_ rfl rfl
      constructor
      · rintro ⟨h1, h2, h3⟩
        exact ⟨h1, List.mem_cons_of_mem _ h2, h3⟩
      · rintro ⟨h1, h2, h3⟩
        rcases List.mem_cons.mp h2 with rfl | h2
        · rw [hemp] at h3
          simp at h3
        · exact ⟨h1, h2, h3⟩
    · rename_i hemp
      rw [List.countP_append, ih _ htl,
        countP_pooled_conc axis (mdata.filter (fun row => row.compound = p0)) p0
          (colors p0) r R q c m0 hm axis (decide (p0 ∉ seen)) hax]
      by_cases hq : q = p0
      · subst hq
        rw [if_neg (show ¬(r = R ∧ q ∈ ps ∧
            (mdata.filter (fun row => row.compound = q)).filter
              (fun row => row.concentration = c) ≠ []) from fun h => hp0 h.2.1),
          Nat.add_zero]
        refine if_congr ?_ rfl rfl
        constructor
        · rintro ⟨h1, _, _, h4⟩
          exact ⟨h1, List.mem_cons_self _ _, h4⟩
        · rintro ⟨h1, _, h4⟩
          have hcx : c ∈ axis := by
            obtain ⟨row, hrow⟩ := List.exists_mem_of_ne_nil _ h4
            obtain ⟨hrcmd, hrc⟩ := List.mem_filter.mp hrow
            have hmd : row ∈ mdata := (List.mem_filter.mp hrcmd).1
            have hcq := H row hmd
            simp only [decide_eq_true_eq] at hrc
            rwa [hrc] at hcq
          exact ⟨h1, rfl, hcx, h4⟩
      · rw [if_neg (fun h => hq h.2.1.symm), Nat.zero_add]
        refine if_congr ?_ rfl rfl
        constructor
        · rintro ⟨h1, h2, h3⟩
          exact ⟨h1, List.mem_cons_of_mem _ h2, h3⟩
        · rintro ⟨h1, h2, h3⟩
          rcases List.mem_cons.mp h2 with rfl | h2
          · exact absurd rfl hq
          · exact ⟨h1, h2, h3⟩

theorem countP_pooled_measurement (filtered : Table) (axis : List ℚ)
    (colors : String → Option String) (compounds : List String) (q : String)
    (c : ℚ) (m0 : String) (hm : m0 = "markers" ∨ m0 = "lines")
    (hax : axis.Nodup) (hnd : compounds.Nodup)
    (H : ∀ row ∈ filtered, row.concentration ∈ axis) :
    ∀ ms idx seen i (hi : i < ms.length),
      (pooled_measurement_traces filtered axis colors compounds ms idx seen).countP
        (tracePred (idx + i + 1) q c m0) =
      if q ∈ compounds ∧
          ((filtered.filter (fun row => row.measurement_name = ms.get ⟨i, hi⟩)).filter
            (fun row => row.compound = q)).filter
              (fun row => row.concentration = c) ≠ []
        then 1 else 0 := by
  intro ms
  induction ms with
  | nil => intro idx seen i hi; simp at hi
  | cons m ms ih =>
    intro idx seen i hi
    rw [pooled_measurement_traces, List.countP_append]
    have Hm : ∀ row ∈ filtered.filter (fun row => row.measurement_name = m),
        row.concentration ∈ axis :=
      fun row hrow => H row (List.mem_filter.mp hrow).1
    cases i with
    | zero =>
      have hz : idx + 0 + 1 = idx + 1 := by omega
      rw [hz]
      rw [countP_pooled_compound axis _ colors (idx + 1) (idx + 1) q c m0 hm hax Hm
        compounds seen hnd]
      have hrest : (pooled_measurement_traces filtered axis colors compounds ms
          (idx + 1)
          ((pooled_compound_traces axis
            (filtered.filter (fun row => row.measurement_name = m)) colors (idx + 1)
            compounds seen).2)).countP (tracePred (idx + 1) q c m0) = 0 := by
        rw [List.countP_eq_zero]
        intro t ht hpred
        have hlb := pooled_measurement_traces_row_lb filtered axis colors compounds
          ms (idx + 1) _ t ht
        simp only [tracePred, decide_eq_true_eq] at hpred
        omega
      rw [hrest, Nat.add_zero]
      refine if_congr ?_ rfl rfl
      constructor
      · rintro ⟨_, h2, h3⟩
        exact ⟨h2, h3⟩
      · rintro ⟨h2, h3⟩
        exact ⟨rfl, h2, h3⟩
    | succ j =>
      have hj : j < ms.length := by simpa using hi
      have hstage : (pooled_compound_traces axis
          (filtered.filter (fun row => row.measurement_name = m)) colors (idx + 1)
          compounds seen).1.countP (tracePred (idx + (j + 1) + 1) q c m0) = 0 := by
        rw [List.countP_eq_zero]
        intro t ht hpred
        have hrow := pooled_compound_traces_row axis _ colors (idx + 1) compounds
          seen t ht
        simp only [tracePred, decide_eq_true_eq] at hpred
        omega
      rw [hstage, Nat.zero_add]
      have harith : idx + (j + 1) + 1 = (idx + 1) + j + 1 := by omega
      rw [harith, ih (idx + 1) _ j hj]
      simp [List.get_cons_succ]

/-- Claim C1: in pooled mode, for every (measurement, compound,
concentration) triple with matching rows in the filtered table, the spec
contains one marker series with one point per matching row (y = each
row's average) at the shared x-index of that concentration, plus one
horizontal mean segment centred there (not shown in the legend) whose y
is the arithmetic mean of the matching averages; both series are unique
for their (panel, compound, concentration, mode) key. -/
theorem C1_pooled_points_and_mean (d : Table) (rd : String) (sc sm : List String)
    (colors : String → Option String) (p : String) (c : ℚ) (i : Nat)
    (hnd : sc.Nodup) (hi : i < sm.length)
    (hne : (((get_filtered_data rd sc sm d).filter
        (fun row => row.measurement_name = sm.get ⟨i, hi⟩)).filter
        (fun row => row.compound = p)).filter
        (fun row => row.concentration = c) ≠ []) :
    ∃ bf : Bool,
      ({ x := List.replicate ((((get_filtered_data rd sc sm d).filter
              (fun row => row.measurement_name = sm.get ⟨i, hi⟩)).filter
              (fun row => row.compound = p)).filter
              (fun row => row.concentration = c)).length
            ((idxOf c (all_concentrations (get_filtered_data rd sc sm d)) : Nat) : ℚ)
         y := ((((get_filtered_data rd sc sm d).filter
              (fun row => row.measurement_name = sm.get ⟨i, hi⟩)).filter
              (fun row => row.compound = p)).filter
              (fun row => row.concentration = c)).map (·.average)
         error_y := none
         mode := "markers"
         color := colors p
         legendgroup := some p
         show_legend := bf
         name := if bf then some p else none
         hcomp := some p
         conc := some c
         customdata := []
         row := i + 1
         col := 1 } : Series) ∈
        build_pooled (get_filtered_data rd sc sm d) sm sc colors
      ∧ ({ x := [((idxOf c (all_concentrations (get_filtered_data rd sc sm d)) : Nat) : ℚ) - 1/5,
               ((idxOf c (all_concentrations (get_filtered_data rd sc sm d)) : Nat) : ℚ) + 1/5]
           y := [listMean (((((get_filtered_data rd sc sm d).filter
                (fun row => row.measurement_name = sm.get ⟨i, hi⟩)).filter
                (fun row => row.compound = p)).filter
                (fun row => row.concentration = c)).map (·.average)),
               listMean (((((get_filtered_data rd sc sm d).filter
                (fun row => row.measurement_name = sm.get ⟨i, hi⟩)).filter
                (fun row => row.compound = p)).filter
                (fun row => row.concentration = c)).map (·.average))]
           error_y := none
           mode := "lines"
           color := colors p
           legendgroup := none
           show_legend := false
           name := none
           hcomp := some p
           conc := some c
           customdata := []
           row := i + 1
           col := 1 } : Series) ∈
        build_pooled (get_filtered_data rd sc sm d) sm sc colors
      ∧ (build_pooled (get_filtered_data rd sc sm d) sm sc colors).countP
          (tracePred (i + 1) p c "markers") = 1
      ∧ (build_pooled (get_filtered_data rd sc sm d) sm sc colors).countP
          (tracePred (i + 1) p c "lines") = 1 := by
  obtain ⟨row, hrow⟩ := List.exists_mem_of_ne_nil _ hne
  have h1 := List.mem_filter.mp hrow
  have h2 := List.mem_filter.mp h1.1
  have h3 := List.mem_filter.mp h2.1
  have hrowF : row ∈ get_filtered_data rd sc sm d := h3.1
  have hpc : row.compound = p := by simpa using h2.2
  have hcc : row.concentration = c := by simpa using h1.2
  have hFd : row.compound ∈ sc := by
    have hrowF2 := hrowF
    simp only [get_filtered_data] at hrowF2
    have := (List.mem_filter.mp (List.mem_filter.mp hrowF2).1).2
    simpa using this
  have hp_sc : p ∈ sc := hpc ▸ hFd
  have hcA : c ∈ all_concentrations (get_filtered_data rd sc sm d) :=
    (mem_all_concentrations _ c).mpr ⟨row, hrowF, hcc⟩
  have H : ∀ rr ∈ get_filtered_data rd sc sm d,
      rr.concentration ∈ all_concentrations (get_filtered_data rd sc sm d) :=
    fun rr hr => (mem_all_concentrations _ _).mpr ⟨rr, hr, rfl⟩
  have hax := all_concentrations_nodup (get_filtered_data rd sc sm d)
  have hcmd : ((get_filtered_data rd sc sm d).filter
      (fun row => row.measurement_name = sm.get ⟨i, hi⟩)).filter
      (fun row => row.compound = p) ≠ [] := by
    intro h
    apply hne
    rw [h]
    simp
  obtain ⟨sn, hsub⟩ := pooled_measurement_traces_mem (get_filtered_data rd sc sm d)
    (all_concentrations (get_filtered_data rd sc sm d)) colors sc sm 0 [] i hi
  obtain ⟨b0, hsub2⟩ := pooled_compound_traces_mem
    (all_concentrations (get_filtered_data rd sc sm d))
    ((get_filtered_data rd sc sm d).filter
      (fun row => row.measurement_name = sm.get ⟨i, hi⟩)) colors (0 + i + 1) p sc
    sn hp_sc hcmd
  obtain ⟨bf, hmm1, hmm2⟩ := pooled_conc_traces_mem
    (all_concentrations (get_filtered_data rd sc sm d))
    (((get_filtered_data rd sc sm d).filter
      (fun row => row.measurement_name = sm.get ⟨i, hi⟩)).filter
      (fun row => row.compound = p)) p (colors p) (0 + i + 1) c
    (all_concentrations (get_filtered_data rd sc sm d)) b0 hcA hne
  have hz : (0 : Nat) + i + 1 = i + 1 := by omega
  refine ⟨bf, ?_, ?_, ?_, ?_⟩
  · have hin := hsub _ (hsub2 _ hmm1)
    rw [build_pooled]
    rw [hz] at hin
    exact hin
  · have hin := hsub _ (hsub2 _ hmm2)
    rw [build_pooled]
    rw [hz] at hin
    exact hin
  · have hcount := countP_pooled_measurement (get_filtered_data rd sc sm d)
      (all_concentrations (get_filtered_data rd sc sm d)) colors sc p c "markers"
      (Or.inl rfl) hax hnd H sm 0 [] i hi
    rw [if_pos ⟨hp_sc, hne⟩] at hcount
    rw [build_pooled, ← hz]
    exact hcount
  · have hcount := countP_pooled_measurement (get_filtered_data rd sc sm d)
      (all_concentrations (get_filtered_data rd sc sm d)) colors sc p c "lines"
      (Or.inr rfl) hax hnd H sm 0 [] i hi
    rw [if_pos ⟨hp_sc, hne⟩] at hcount
    rw [build_pooled, ← hz]
    exact hcount

/-- Claim C1 witness: the spec's two-row scenario. Compound A, Rising
Slope, concentration 0.1 matches both rows (averages 5.0 and 7.0), the
pooled spec has exactly one marker series and one mean segment for the
triple, and the mean of the averages is 6.0 at the shared x-index 0. -/
theorem C1_witness :
    ((((get_filtered_data "calcium" ["A"] ["Rising Slope"] scenario_table).filter
        (fun row => row.measurement_name = "Rising Slope")).filter
        (fun row => row.compound = "A")).filter
        (fun row => row.concentration = mkRat 1 10)) = [rowA1, rowA2]
    ∧ listMean ([rowA1, rowA2].map (·.average)) = 6
    ∧ idxOf (mkRat 1 10) (all_concentrations (get_filtered_data "calcium" ["A"]
        ["Rising Slope"] scenario_table)) = 0
    ∧ (build_pooled (get_filtered_data "calcium" ["A"] ["Rising Slope"] scenario_table)
        ["Rising Slope"] ["A"] (colorOf ["A"])).countP
        (tracePred 1 "A" (mkRat 1 10) "markers") = 1
    ∧ (build_pooled (get_filtered_data "calcium" ["A"] ["Rising Slope"] scenario_table)
        ["Rising Slope"] ["A"] (colorOf ["A"])).countP
        (tracePred 1 "A" (mkRat 1 10) "lines") = 1 := by
  refine ⟨by decide, ?_, by decide, ?_, ?_⟩
  · show listMean ([rowA1, rowA2].map (·.average)) = 6
    norm_num [listMean, rowA1, rowA2]
  · obtain ⟨bf, _, _, hc, _⟩ := C1_pooled_points_and_mean scenario_table "calcium"
      ["A"] ["Rising Slope"] (colorOf ["A"]) "A" (mkRat 1 10) 0 (by decide)
      (by decide) (by decide)
    exact hc
  · obtain ⟨bf, _, _, _, hd⟩ := C1_pooled_points_and_mean scenario_table "calcium"
      ["A"] ["Rising Slope"] (colorOf ["A"]) "A" (mkRat 1 10) 0 (by decide)
      (by decide) (by decide)
    exact hd
